import Mathlib

/-!
Verification development for the statement-parsing and transaction pipeline of
the privy-finance repository.

The TypeScript sources embedded here are:
* src/lib/utils/csv-parser.ts      (amount/date normalizer, category classifier,
                                    tabular row extractor, PDF heuristics, merge)
* src/app/api/documents/[id]/process/route.ts
                                   (sanitize/clamp layer, stored-transaction
                                    normalization, ingestion merge, summaries)
* src/lib/utils/transactions.ts    (lightweight monthly aggregator)

Modelling conventions, used throughout:
* JavaScript numbers are modelled as rational numbers.  The pipeline only ever
  produces finite decimal values, so Number.isFinite checks are vacuously true
  in the model and NaN is represented by Option/Except failure.
* Thrown exceptions are modelled with Except, caught exceptions with Option.
* JavaScript string ordering (localeCompare on fixed-format ISO dates and on
  plain ASCII) is modelled as code-unit lexicographic order.
* Array.prototype.sort with a consistent comparator is stable (ECMA-262);
  it is modelled by List.insertionSort, which is stable and sorted, hence
  produces the same list.
* JS Map and plain-object records are modelled as association lists in
  insertion order; Map.set and property assignment update in place.
  (For plain objects, integer-like keys would iterate first; none of the
  statements proved here depend on iteration order of those records.)
* Rat.add and friends are irreducible in the kernel, so the embedding uses
  explicit kernel-reducible wrappers (qadd, qmulInt, ...) that are proved
  equal to the mathematical operations.
-/

deriving instance DecidableEq for Except

/-! ## Kernel-reducible rational arithmetic -/

/-- Kernel-reducible addition on the rationals. -/
def qadd (a b : ℚ) : ℚ := Rat.divInt (a.num * b.den + b.num * a.den) (a.den * b.den)

/-- Kernel-reducible negation on the rationals. -/
def qneg (a : ℚ) : ℚ := -a

/-- Kernel-reducible absolute value on the rationals. -/
def qabs (a : ℚ) : ℚ := if a.num < 0 then -a else a

/-- Kernel-reducible floor of a rational. -/
def qfloor (q : ℚ) : Int := q.num / (q.den : Int)

/-- Kernel-reducible multiplication of a rational by an integer. -/
def qmulInt (q : ℚ) (n : Int) : ℚ := Rat.divInt (q.num * n) q.den

/-- Kernel-reducible division of a rational by a nonzero integer. -/
def qdivInt (q : ℚ) (n : Int) : ℚ := Rat.divInt q.num (q.den * n)

theorem qadd_eq (a b : ℚ) : qadd a b = a + b := by
  rw [qadd]
  conv_rhs => rw [← Rat.num_divInt_den a, ← Rat.num_divInt_den b]
  rw [Rat.divInt_add_divInt _ _ (by exact_mod_cast a.den_nz) (by exact_mod_cast b.den_nz)]

theorem qneg_eq (a : ℚ) : qneg a = -a := rfl

theorem qabs_eq (a : ℚ) : qabs a = |a| := by
  rw [qabs]
  rcases le_or_lt 0 a.num with h | h
  · rw [if_neg (not_lt.mpr h), abs_of_nonneg (by exact_mod_cast Rat.num_nonneg.mp h)]
  · rw [if_pos h, abs_of_neg (by exact_mod_cast Rat.num_neg.mp h)]

theorem qfloor_eq (q : ℚ) : qfloor q = ⌊q⌋ := by
  rw [qfloor, Rat.floor_def]

theorem qmulInt_eq (q : ℚ) (n : Int) : qmulInt q n = q * n := by
  rw [qmulInt]
  conv_rhs => rw [← Rat.num_divInt_den q]
  rw [show ((n : ℚ)) = Rat.divInt n 1 by simp [Rat.divInt_eq_div],
    Rat.divInt_mul_divInt' q.num (q.den : Int) n 1, mul_one]

theorem qdivInt_eq (q : ℚ) (n : Int) : qdivInt q n = q / n := by
  rw [qdivInt]
  conv_rhs => rw [← Rat.num_divInt_den q]
  rw [show ((n : ℚ)) = Rat.divInt n 1 by simp [Rat.divInt_eq_div]]
  rw [Rat.div_def, Rat.inv_divInt, Rat.divInt_mul_divInt' q.num (q.den : Int) 1 n, mul_one]

/-! ## Character classes and elementary string utilities

Strings are handled through their character lists so that every operation
reduces in the kernel.  JS regex classes: \s (whitespace), \w (word), \d
(digit).  The whitespace class is modelled by the ASCII whitespace characters
plus NBSP, which covers every input the parser manipulates. -/

/-- JS regex \s, restricted to the characters that occur in statement text. -/
def jsWs (c : Char) : Bool :=
  c = ' ' || c = '\t' || c = '\n' || c = '\r' || c = '\x0b' || c = '\x0c' || c = ' '

/-- JS regex \w: ASCII letters, digits and underscore. -/
def wordChar (c : Char) : Bool := c.isAlpha || c.isDigit || c = '_'

/-- ASCII lower-casing, the fragment of String.prototype.toLowerCase exercised
by the parser (all keyword tables are ASCII). -/
def lowerChar (c : Char) : Char :=
  if 'A' ≤ c ∧ c ≤ 'Z' then Char.ofNat (c.toNat + 32) else c

def lowerL (s : List Char) : List Char := s.map lowerChar

/-- String.prototype.trim, on character lists. -/
def trimL (s : List Char) : List Char :=
  (((s.dropWhile jsWs).reverse).dropWhile jsWs).reverse

/-- String.prototype.trim. -/
def jsTrim (s : String) : String := ⟨trimL s.data⟩

def jsToLower (s : String) : String := ⟨lowerL s.data⟩

/-- Lexicographic code-unit comparison, the behaviour of localeCompare on the
fixed-width ASCII strings (ISO dates) the pipeline compares. -/
def lexLe : List Char → List Char → Bool
  | [], _ => true
  | _ :: _, [] => false
  | a :: s, b :: t =>
    if a.toNat < b.toNat then true
    else if b.toNat < a.toNat then false
    else lexLe s t

theorem lexLe_total (s t : List Char) : lexLe s t || lexLe t s := by
  induction s generalizing t with
  | nil => simp [lexLe]
  | cons a s ih =>
    cases t with
    | nil => simp [lexLe]
    | cons b t =>
      simp only [lexLe]
      rcases Nat.lt_trichotomy a.toNat b.toNat with h | h | h
      · simp [h]
      · simp [h, Nat.lt_irrefl, ih t]
      · simp [h, Nat.lt_asymm h]

theorem lexLe_trans {s t u : List Char} (h₁ : lexLe s t) (h₂ : lexLe t u) : lexLe s u := by
  induction s generalizing t u with
  | nil => simp [lexLe]
  | cons a s ih =>
    cases t with
    | nil => simp [lexLe] at h₁
    | cons b t =>
      cases u with
      | nil => simp [lexLe] at h₂
      | cons c u =>
        simp only [lexLe] at h₁ h₂ ⊢
        rcases Nat.lt_trichotomy a.toNat b.toNat with hab | hab | hab
        · rcases Nat.lt_trichotomy b.toNat c.toNat with hbc | hbc | hbc
          · simp [Nat.lt_trans hab hbc]
          · simp [hbc ▸ hab]
          · simp only [if_neg (Nat.lt_asymm hbc), if_pos hbc] at h₂
            exact absurd h₂ (by simp)
        · rw [hab] at h₁ ⊢
          simp only [Nat.lt_irrefl, if_false] at h₁
          rcases Nat.lt_trichotomy b.toNat c.toNat with hbc | hbc | hbc
          · simp [hbc]
          · rw [hbc] at h₂ ⊢
            simp only [Nat.lt_irrefl, if_false] at h₂ ⊢
            exact ih h₁ h₂
          · simp only [if_neg (Nat.lt_asymm hbc), if_pos hbc] at h₂
            exact absurd h₂ (by simp)
        · simp only [if_neg (Nat.lt_asymm hab), if_pos hab] at h₁
          exact absurd h₁ (by simp)

/-! ## Proleptic Gregorian calendar arithmetic

JS Date stores milliseconds since the Unix epoch; Date.UTC and toISOString
convert between that and Gregorian calendar fields.  The conversions below are
the standard civil-from-days / days-from-civil algorithms on day counts. -/

/-- Calendar date triple (year, month 1..12, day 1..31). -/
structure CivilDate where
  year : Int
  month : Nat
  day : Nat
  deriving DecidableEq, Repr

/-- Days since 1970-01-01 of a civil date (proleptic Gregorian). -/
def daysFromCivil (dt : CivilDate) : Int :=
  let y : Int := if dt.month ≤ 2 then dt.year - 1 else dt.year
  let era : Int := (if 0 ≤ y then y else y - 399) / 400
  let yoe : Int := y - era * 400
  let mp : Int := if dt.month ≤ 2 then (dt.month : Int) + 9 else (dt.month : Int) - 3
  let doy : Int := (153 * mp + 2) / 5 + (dt.day : Int) - 1
  let doe : Int := yoe * 365 + yoe / 4 - yoe / 100 + doy
  era * 146097 + doe - 719468

/-- Civil date of a day count since 1970-01-01 (proleptic Gregorian). -/
def civilFromDays (z0 : Int) : CivilDate :=
  let z : Int := z0 + 719468
  let era : Int := (if 0 ≤ z then z else z - 146096) / 146097
  let doe : Nat := (z - era * 146097).toNat
  let yoe : Nat := (doe - doe / 1460 + doe / 36524 - doe / 146096) / 365
  let doy : Nat := doe - (365 * yoe + yoe / 4 - yoe / 100)
  let mp : Nat := (5 * doy + 2) / 153
  let d : Nat := doy - (153 * mp + 2) / 5 + 1
  let m : Nat := if mp < 10 then mp + 3 else mp - 9
  { year := era * 400 + (yoe : Int) + (if m ≤ 2 then 1 else 0), month := m, day := d }

def leapYear (y : Int) : Bool := y % 4 = 0 && (y % 100 ≠ 0 || y % 400 = 0)

def daysInMonth (y : Int) (m : Nat) : Nat :=
  if m = 2 then (if leapYear y then 29 else 28)
  else if m = 4 || m = 6 || m = 9 || m = 11 then 30
  else 31

/-- Field-range validity, the check the JS Date-Time-String parser performs on
ISO date strings (out-of-range components make an Invalid Date). -/
def validCivil (y : Int) (m d : Nat) : Bool :=
  1 ≤ m && m ≤ 12 && 1 ≤ d && d ≤ daysInMonth y m

def digitChar (n : Nat) : Char := Char.ofNat (48 + n % 10)

/-- Zero-padded 2-digit rendering. -/
def pad2 (n : Nat) : List Char := [digitChar (n / 10), digitChar n]

/-- Zero-padded 4-digit rendering (toISOString year field; every year this
development evaluates lies in 1000..9999). -/
def pad4 (n : Nat) : List Char :=
  [digitChar (n / 1000), digitChar (n / 100), digitChar (n / 10), digitChar n]

/-- Date-part of toISOString for a day count. -/
def isoOfDays (z : Int) : String :=
  let c := civilFromDays z
  ⟨pad4 c.year.toNat ++ '-' :: pad2 c.month ++ '-' :: pad2 c.day⟩

def digitVal (c : Char) : Nat := c.toNat - 48

/-- Strict parser for the Date-Time-String-Format date form YYYY-MM-DD: the
only string shape whose JS Date parse the embedding relies on.  (V8 also has a
legacy parser for other shapes; for the slash/hyphen triples the code feeds it,
the explicit split-and-reassemble fallback in normalizeDate produces the same
result, so the model routes those through the fallback.)  Returns the day
count of the UTC midnight the string denotes. -/
def parseIsoDate (s : String) : Option Int :=
  match s.data with
  | [y1, y2, y3, y4, h1, m1, m2, h2, d1, d2] =>
    if (y1.isDigit && y2.isDigit && y3.isDigit && y4.isDigit &&
        h1 = '-' && m1.isDigit && m2.isDigit && h2 = '-' && d1.isDigit && d2.isDigit) then
      let y : Int := (((digitVal y1 * 10 + digitVal y2) * 10 + digitVal y3) * 10 + digitVal y4 : Nat)
      let m : Nat := digitVal m1 * 10 + digitVal m2
      let d : Nat := digitVal d1 * 10 + digitVal d2
      if validCivil y m d then some (daysFromCivil ⟨y, m, d⟩) else none
    else none
  | _ => none

/-! ## Substring and word-boundary scanners

These model the specific JS regular-expression tests the parser performs.
All are structurally recursive so they reduce in the kernel. -/

/-- Substring containment (String.prototype.includes / an unanchored literal
regex test), at a given suffix or later. -/
def hasSubAux (pat : List Char) : List Char → Bool
  | [] => pat.isEmpty
  | c :: rest => pat.isPrefixOf (c :: rest) || hasSubAux pat rest

def hasSub (pat s : String) : Bool := hasSubAux pat.data s.data

/-- Case-insensitive substring containment: both sides lower-cased. -/
def hasSubCI (pat s : String) : Bool := hasSubAux (lowerL pat.data) (lowerL s.data)

/-- Word-boundary test at the head of the suffix: the previous character (if
any) is not a word character. -/
def bdry (prev : Option Char) : Bool :=
  match prev with
  | none => true
  | some p => !wordChar p

/-- Word-boundary test after a consumed token. -/
def bdryAfter : List Char → Bool
  | [] => true
  | c :: _ => !wordChar c

/-- Occurrence of the word pat delimited by regex word boundaries, i.e. the
test \bpat\b on a subject whose characters are already lower-cased. -/
def hasWordAux (pat : List Char) (prev : Option Char) : List Char → Bool
  | [] => false
  | c :: rest =>
    (bdry prev && pat.isPrefixOf (c :: rest) && bdryAfter ((c :: rest).drop pat.length))
      || hasWordAux pat (some c) rest

/-- Case-insensitive word-boundary test \bpat\b (pat given in lower case). -/
def hasWordCI (pat : List Char) (s : String) : Bool := hasWordAux pat none (lowerL s.data)

/-! ## JS Number conversion for decimal strings -/

/-- Digit-run consumer: accumulated value, count of digits, rest. -/
def digitsAux (acc : Nat) (cnt : Nat) : List Char → Nat × Nat × List Char
  | [] => (acc, cnt, [])
  | c :: rest =>
    if c.isDigit then digitsAux (acc * 10 + digitVal c) (cnt + 1) rest
    else (acc, cnt, c :: rest)

/-- Assembles sign * (ip.fp) * 10^exp as a rational. -/
def mkDecimal (sgn : Int) (ip fp fc : Nat) (esgn : Int) (ev : Nat) : ℚ :=
  let mant : Int := sgn * ((ip * 10 ^ fc + fp : Nat) : Int)
  if 0 ≤ esgn then Rat.divInt (mant * (10 ^ ev : Nat)) ((10 ^ fc : Nat) : Int)
  else Rat.divInt mant (((10 ^ fc : Nat) : Int) * ((10 ^ ev : Nat) : Int))

/-- ToNumber on strings, for the decimal literals (optionally signed, with
optional fraction and exponent) that amount parsing produces; none models NaN.
The Infinity / hex / octal / binary literal forms never arise from the
character-stripping that precedes every conversion and are modelled as NaN.
The empty string converts to 0 as in JS. -/
def jsNumber (s : String) : Option ℚ :=
  match s.data with
  | [] => some 0
  | l =>
    let (sgn, l1) : Int × List Char :=
      match l with
      | '-' :: r => (-1, r)
      | '+' :: r => (1, r)
      | _ => (1, l)
    let (ip, ic, l2) := digitsAux 0 0 l1
    let (fp, fc, l3) : Nat × Nat × List Char :=
      match l2 with
      | '.' :: r => digitsAux 0 0 r
      | _ => (0, 0, l2)
    if ic + fc = 0 then none
    else
      match l3 with
      | [] => some (mkDecimal sgn ip fp fc 1 0)
      | e :: r4 =>
        if e = 'e' ∨ e = 'E' then
          let (esgn, r5) : Int × List Char :=
            match r4 with
            | '-' :: r => (-1, r)
            | '+' :: r => (1, r)
            | _ => (1, r4)
          let (ev, ec, r6) := digitsAux 0 0 r5
          if ec = 0 then none
          else match r6 with
            | [] => some (mkDecimal sgn ip fp fc esgn ev)
            | _ :: _ => none
        else none

/-! ## Amount and date normalizer (csv-parser.ts) -/

/-- Cell values flowing through the parser: strings, numbers, or undefined
(absent).  Native Date objects never reach the parser in the embedded paths
(CSV and sheet extraction produce strings; cellDates is false). -/
inductive CellValue where
  | str (s : String)
  | num (q : ℚ)
  | undef
  deriving DecidableEq, Repr

/-- Digits of a natural number (structural, fuel-driven). -/
def natDigitsAux (fuel n : Nat) (acc : List Char) : List Char :=
  match fuel with
  | 0 => acc
  | fuel + 1 =>
    if n < 10 then digitChar n :: acc
    else natDigitsAux fuel (n / 10) (digitChar (n % 10) :: acc)

def natRepr (n : Nat) : List Char := natDigitsAux (n + 1) n []

/-- Rendering of a number in string contexts (String(value)).  The pipeline
only stringifies integral numbers; non-integral ones are rendered num/den. -/
def numRepr (q : ℚ) : String :=
  let mag := natRepr q.num.natAbs
  let core := if q.den = 1 then mag else mag ++ '/' :: natRepr q.den
  ⟨if q.num < 0 then '-' :: core else core⟩

/-- asCleanString from csv-parser.ts: null/undefined become the empty string,
everything else is stringified and trimmed. -/
def asCleanString : CellValue → String
  | .str s => jsTrim s
  | .num q => jsTrim (numRepr q)
  | .undef => ""

def headDash : List Char → Bool
  | '-' :: _ => true
  | _ => false

def lastDash (l : List Char) : Bool := headDash l.reverse

/-- hasAmountSign from csv-parser.ts. -/
def hasAmountSign (raw : String) : Bool :=
  raw.data.any (· = '(') || raw.data.any (· = ')') ||
  headDash (trimL raw.data) || lastDash (trimL raw.data) ||
  (hasWordCI ['c', 'r'] raw || hasWordCI ['d', 'r'] raw)

/-- Global removal of \b(cr|dr)\b (case-insensitive); boundaries are judged on
the original string and scanning resumes after each match, as in
String.prototype.replace with a global regex. -/
def removeCrDrAux (prev : Option Char) : List Char → List Char
  | [] => []
  | c :: rest =>
    if bdry prev &&
        ((lowerChar c = 'c' ∨ lowerChar c = 'd') &&
          (match rest with
           | r :: _ => lowerChar r = 'r'
           | [] => false) &&
          bdryAfter (rest.drop 1)) then
      match rest with
      | r :: rest2 => removeCrDrAux (some r) rest2
      | [] => []
    else c :: removeCrDrAux (some c) rest

/-- String branch of parseAmount, applied to the already-trimmed string. -/
def parseAmountStr (raw : String) : Except String ℚ :=
  if raw = "" then .error "Invalid amount: empty"
  else
    let isCr := hasWordCI ['c', 'r'] raw
    let isDr := hasWordCI ['d', 'r'] raw
    let isNegative :=
      raw.data.any (· = '(') || headDash (trimL raw.data) || lastDash (trimL raw.data) || isDr
    let cleaned : List Char :=
      (raw.data.filter (fun c => !(c = '$' || c = ',' || jsWs c))).filter
        (fun c => !(c = '(' || c = ')'))
    let cleaned := removeCrDrAux none cleaned
    match jsNumber ⟨cleaned⟩ with
    | none => .error ("Invalid amount: " ++ raw)
    | some numeric =>
      if isNegative then .ok (qneg (qabs numeric))
      else if isCr then .ok (qabs numeric)
      else .ok numeric

/-- parseAmount from csv-parser.ts.  Number input returns as-is (finite in the
model); strings are cleaned and classified by sign markers.  Exactly as in the
source, the negative test (parenthesis, leading/trailing dash, DR) is applied
before the CR test. -/
def parseAmount (value : CellValue) : Except String ℚ :=
  match value with
  | .num q => .ok q
  | v => parseAmountStr (asCleanString v)

/-- String splitting on every slash or dash character (the split the
normalizeDate fallback performs). -/
def splitSlashDashAux (cur : List Char) : List Char → List (List Char)
  | [] => [cur.reverse]
  | c :: rest =>
    if c = '/' ∨ c = '-' then cur.reverse :: splitSlashDashAux [] rest
    else splitSlashDashAux (c :: cur) rest

/-- padStart(2, '0'). -/
def padStart2 (l : List Char) : List Char :=
  match l with
  | [] => ['0', '0']
  | [c] => ['0', c]
  | l => l

/-- normalizeDate from csv-parser.ts.  Finite numbers in the open interval
(20000, 80000) are Excel serial dates: epoch Date.UTC(1899, 11, 30) plus
value * 24*60*60*1000 milliseconds, rendered through toISOString.  Strings are
tried as ISO dates, then as slash/hyphen triples US-first then
international. -/
def normalizeDate (value : CellValue) : Except String String :=
  match value with
  | .num q =>
    if 20000 < q ∧ q < 80000 then
      let excelEpochMs : Int := daysFromCivil ⟨1899, 12, 30⟩ * 86400000
      let ms : ℚ := qadd (Rat.divInt excelEpochMs 1) (qmulInt q 86400000)
      .ok (isoOfDays (qfloor (qdivInt ms 86400000)))
    else .error ("Invalid date format: " ++ numRepr q)
  | v =>
    let raw := asCleanString v
    if raw = "" then .error "Invalid date format: empty"
    else
      match parseIsoDate raw with
      | some days => .ok (isoOfDays days)
      | none =>
        match (splitSlashDashAux [] raw.data).map trimL with
        | [a, b, c] =>
          match parseIsoDate ⟨c ++ '-' :: padStart2 a ++ '-' :: padStart2 b⟩ with
          | some days => .ok (isoOfDays days)
          | none =>
            match parseIsoDate ⟨c ++ '-' :: padStart2 b ++ '-' :: padStart2 a⟩ with
            | some days => .ok (isoOfDays days)
            | none => .error ("Invalid date format: " ++ raw)
        | _ => .error ("Invalid date format: " ++ raw)

/-- classifyCategory from csv-parser.ts. -/
def classifyCategory (description : String) (amount : ℚ) : String :=
  let desc := jsToLower description
  if 0 < amount then
    if hasSub "payroll" desc || hasSub "salary" desc || hasSub "wage" desc then "income_salary"
    else if hasSub "interest" desc || hasSub "dividend" desc then "income_investment"
    else "income_other"
  else if hasSub "uber" desc || hasSub "lyft" desc || hasSub "gas" desc ||
      hasSub "shell" desc || hasSub "chevron" desc then "transportation"
  else if hasSub "rent" desc || hasSub "mortgage" desc then "housing"
  else if hasSub "walmart" desc || hasSub "costco" desc || hasSub "target" desc ||
      hasSub "whole foods" desc || hasSub "trader joe" desc then "groceries"
  else if hasSub "restaurant" desc || hasSub "doordash" desc || hasSub "grubhub" desc ||
      hasSub "coffee" desc || hasSub "cafe" desc then "dining"
  else if hasSub "netflix" desc || hasSub "spotify" desc || hasSub "hulu" desc ||
      hasSub "prime" desc then "subscriptions"
  else if hasSub "hospital" desc || hasSub "clinic" desc || hasSub "pharmacy" desc then
    "healthcare"
  else if hasSub "insurance" desc then "insurance"
  else if hasSub "tuition" desc || hasSub "student loan" desc then "education"
  else "other"

/-! ## Association lists: JS objects and Maps

Lookup finds the first matching key; set updates in place or appends, which is
exactly the iteration-order behaviour of Map.set and property assignment. -/

def alistGet? {β : Type} (m : List (String × β)) (k : String) : Option β :=
  match m with
  | [] => none
  | (k', v) :: rest => if k' = k then some v else alistGet? rest k

def alistSet {β : Type} (m : List (String × β)) (k : String) (v : β) : List (String × β) :=
  match m with
  | [] => [(k, v)]
  | (k', v') :: rest => if k' = k then (k', v) :: rest else (k', v') :: alistSet rest k v

/-! ## Parsed transactions and the tabular row extractor (csv-parser.ts) -/

structure ParsedTransaction where
  date : String
  description : String
  amount : ℚ
  category : String
  deriving DecidableEq, Repr

/-- ParseResult from csv-parser.ts, with the dateRange object flattened into
two fields.  The optional sourceChunks field plays no role in any statement
proved here and is omitted. -/
structure ParseResult where
  transactions : List ParsedTransaction
  totalIncome : ℚ
  totalExpenses : ℚ
  dateRangeStart : String
  dateRangeEnd : String
  deriving DecidableEq, Repr

def DATE_FIELD_KEYS : List String :=
  ["date", "transaction_date", "posted_date", "post_date", "value_date"]

def DESCRIPTION_FIELD_KEYS : List String :=
  ["description", "memo", "payee", "merchant", "narration", "details", "transaction"]

def AMOUNT_FIELD_KEYS : List String :=
  ["amount", "transaction_amount", "value", "transaction value", "amt"]

def DEBIT_FIELD_KEYS : List String :=
  ["debit", "withdrawal", "withdrawals", "payment", "outflow", "debits"]

def CREDIT_FIELD_KEYS : List String :=
  ["credit", "deposit", "deposits", "inflow", "credits"]

/-- normalizeRowKeys: rebuild the record with lower-cased trimmed keys; on a
key collision the later entry wins, as JS property assignment does. -/
def normalizeRowKeys (row : List (String × CellValue)) : List (String × CellValue) :=
  row.foldl (fun m kv => alistSet m (jsTrim (jsToLower kv.1)) kv.2) []

/-- pickField: first key whose value is present and has non-empty clean
string. -/
def pickField (normalized : List (String × CellValue)) (keys : List String) : Option CellValue :=
  match keys with
  | [] => none
  | key :: rest =>
    match alistGet? normalized key with
    | some v => if v ≠ CellValue.undef ∧ asCleanString v ≠ "" then some v else pickField normalized rest
    | none => pickField normalized rest

/-- extractAmountFromNormalized.  A thrown InvalidAmount propagates (the
caller does not catch it); a missing amount yields ok none. -/
def extractAmountFromNormalized (normalized : List (String × CellValue)) :
    Except String (Option ℚ) :=
  match pickField normalized AMOUNT_FIELD_KEYS with
  | some amountRaw => (parseAmount amountRaw).map some
  | none =>
    let debitRaw := pickField normalized DEBIT_FIELD_KEYS
    let creditRaw := pickField normalized CREDIT_FIELD_KEYS
    match debitRaw, creditRaw with
    | none, none => .ok none
    | _, _ => do
      let debit : ℚ ← match debitRaw with
        | some d => (parseAmount d).map qabs
        | none => pure 0
      let credit : ℚ ← match creditRaw with
        | some c => (parseAmount c).map qabs
        | none => pure 0
      if 0 < credit ∧ 0 < debit then .ok (some (qadd credit (qneg debit)))
      else if 0 < credit then .ok (some credit)
      else if 0 < debit then .ok (some (qneg debit))
      else .ok none

/-- rowToTransaction.  Only the date normalization sits inside the try/catch;
an amount-parsing failure escapes as an error. -/
def rowToTransaction (row : List (String × CellValue)) :
    Except String (Option ParsedTransaction) :=
  let normalized := normalizeRowKeys row
  match pickField normalized DATE_FIELD_KEYS, pickField normalized DESCRIPTION_FIELD_KEYS with
  | some dateRaw, some descriptionRaw => do
    match (← extractAmountFromNormalized normalized) with
    | none => .ok none
    | some amount =>
      let description := asCleanString descriptionRaw
      if description = "" then .ok none
      else
        match normalizeDate dateRaw with
        | .error _ => .ok none
        | .ok normalizedDate =>
          .ok (some { date := normalizedDate, description := description, amount := amount,
                      category := classifyCategory description amount })
  | _, _ => .ok none

/-- Row-mapping stage of parseCsvTransactions: rows (already shaped by the CSV
library with the header applied) are mapped through rowToTransaction and the
nulls filtered out; an uncaught exception from any row aborts the map. -/
def csvRowsToTransactions (rows : List (List (String × CellValue))) :
    Except String (List ParsedTransaction) := do
  let opts ← rows.mapM rowToTransaction
  return opts.filterMap id

/-- Comparator passed to the date sorts: localeCompare on ISO dates. -/
def dateRel (a b : ParsedTransaction) : Prop := lexLe a.date.data b.date.data = true

instance : DecidableRel dateRel := fun _ _ => inferInstanceAs (Decidable (_ = true))

instance : IsTotal ParsedTransaction dateRel :=
  ⟨fun a b => by
    rcases Bool.or_eq_true_iff.mp (lexLe_total a.date.data b.date.data) with h | h
    · exact Or.inl h
    · exact Or.inr h⟩

instance : IsTrans ParsedTransaction dateRel := ⟨fun _ _ _ => lexLe_trans⟩

/-- finalizeResult: sort ascending by date (stable), fail on the empty list,
accumulate income and expense totals, read the range off the sorted list. -/
def finalizeResult (rawTransactions : List ParsedTransaction) : Except String ParseResult :=
  if rawTransactions = [] then .error "No valid transaction rows were found"
  else
    let sortedByDate := List.insertionSort dateRel rawTransactions
    let totals :=
      rawTransactions.foldl
        (fun acc tx =>
          if 0 < tx.amount then (qadd acc.1 tx.amount, acc.2)
          else (acc.1, qadd acc.2 (qabs tx.amount)))
        ((0 : ℚ), (0 : ℚ))
    let dflt : ParsedTransaction := { date := "", description := "", amount := 0, category := "" }
    .ok { transactions := sortedByDate
          totalIncome := totals.1
          totalExpenses := totals.2
          dateRangeStart := (sortedByDate.headD dflt).date
          dateRangeEnd := (sortedByDate.getLastD dflt).date }

/-! ## Stability lemmas for insertionSort

A stable sort of a concatenation merges the stable sorts of the parts, with
ties resolved towards the left part; consequently sorting is idempotent under
re-sorting of a sorted prefix, and commutes with filtering.  These facts are
what the ingestion-merge idempotence proof runs on. -/

section StableSort

variable {α : Type} (r : α → α → Prop) [DecidableRel r]

/-- Merge of two lists preferring the left list on ties (proof-only; never
evaluated by the kernel). -/
def pmerge : List α → List α → List α
  | [], L => L
  | S, [] => S
  | s :: S', t :: L' => if r s t then s :: pmerge S' (t :: L') else t :: pmerge (s :: S') L'
termination_by S L => S.length + L.length

theorem pmerge_nil_left (L : List α) : pmerge r [] L = L := by
  cases L <;> simp [pmerge]

theorem pmerge_nil_right (S : List α) : pmerge r S [] = S := by
  cases S <;> simp [pmerge]

theorem pmerge_cons_cons (s t : α) (S' L' : List α) :
    pmerge r (s :: S') (t :: L') =
      if r s t then s :: pmerge r S' (t :: L') else t :: pmerge r (s :: S') L' := by
  simp [pmerge]

theorem pmerge_singleton_left (a : α) : ∀ L : List α,
    pmerge r [a] L = List.orderedInsert r a L
  | [] => by rw [pmerge_nil_right]; rfl
  | t :: L' => by
    rw [pmerge_cons_cons, pmerge_nil_left]
    simp only [List.orderedInsert]
    by_cases hat : r a t
    · rw [if_pos hat, if_pos hat]
    · rw [if_neg hat, if_neg hat, pmerge_singleton_left a L']

theorem insertionSort_append_eq_foldr (X Y : List α) :
    List.insertionSort r (X ++ Y) =
      X.foldr (fun x acc => List.orderedInsert r x acc) (List.insertionSort r Y) := by
  induction X with
  | nil => rw [List.nil_append, List.foldr_nil]
  | cons x X ih => rw [List.cons_append, List.insertionSort, ih, List.foldr_cons]

theorem orderedInsert_all (a : α) (L : List α) (h : ∀ x ∈ L, r a x) :
    List.orderedInsert r a L = a :: L := by
  cases L with
  | nil => rfl
  | cons c L => exact if_pos (h c (List.mem_cons_self c L))

theorem orderedInsert_filter_neg (p : α → Bool) (a : α) (M : List α) (ha : p a = false) :
    (List.orderedInsert r a M).filter p = M.filter p := by
  induction M with
  | nil => simp [ha]
  | cons c M ih =>
    simp only [List.orderedInsert]
    by_cases hac : r a c
    · simp [hac, ha]
    · simp only [if_neg hac, List.filter_cons]
      cases hpc : p c <;> simp [hpc, ih]

variable [IsTrans α r] [IsTotal α r]

theorem orderedInsert_pmerge (a : α) :
    ∀ (S L : List α),
      List.orderedInsert r a (pmerge r S L) = pmerge r (List.orderedInsert r a S) L
  | [], L => by
    rw [pmerge_nil_left, show List.orderedInsert r a [] = [a] from rfl,
      pmerge_singleton_left]
  | s :: S', [] => by
    rw [pmerge_nil_right, pmerge_nil_right]
  | s :: S', t :: L' => by
    rw [pmerge_cons_cons]
    by_cases hras : r a s
    · rw [show List.orderedInsert r a (s :: S') = a :: s :: S' from if_pos hras]
      by_cases hst : r s t
      · have hat : r a t := IsTrans.trans a s t hras hst
        rw [if_pos hst, show List.orderedInsert r a (s :: pmerge r S' (t :: L')) =
            a :: s :: pmerge r S' (t :: L') from if_pos hras,
          pmerge_cons_cons, if_pos hat, pmerge_cons_cons, if_pos hst]
      · rw [if_neg hst]
        simp only [List.orderedInsert]
        by_cases hat : r a t
        · rw [if_pos hat, pmerge_cons_cons, if_pos hat, pmerge_cons_cons, if_neg hst]
        · rw [if_neg hat, pmerge_cons_cons, if_neg hat,
            orderedInsert_pmerge a (s :: S') L',
            show List.orderedInsert r a (s :: S') = a :: s :: S' from if_pos hras]
    · rw [show List.orderedInsert r a (s :: S') = s :: List.orderedInsert r a S' from
        if_neg hras]
      by_cases hst : r s t
      · rw [if_pos hst, show List.orderedInsert r a (s :: pmerge r S' (t :: L')) =
            s :: List.orderedInsert r a (pmerge r S' (t :: L')) from if_neg hras,
          orderedInsert_pmerge a S' (t :: L'), pmerge_cons_cons, if_pos hst]
      · have hat : ¬ r a t := by
          intro hat
          rcases IsTotal.total (r := r) t s with hts | hst2
          · exact hras (IsTrans.trans a t s hat hts)
          · exact hst hst2
        rw [if_neg hst, show List.orderedInsert r a (t :: pmerge r (s :: S') L') =
            t :: List.orderedInsert r a (pmerge r (s :: S') L') from if_neg hat,
          orderedInsert_pmerge a (s :: S') L',
          show List.orderedInsert r a (s :: S') = s :: List.orderedInsert r a S' from
            if_neg hras,
          pmerge_cons_cons, if_neg hst]
termination_by S L => S.length + L.length

/-- Folding insertions into L realises the left-preferring merge. -/
theorem foldr_orderedInsert_eq_pmerge (A L : List α) :
    A.foldr (fun x acc => List.orderedInsert r x acc) L =
      pmerge r (List.insertionSort r A) L := by
  induction A with
  | nil => rw [List.foldr_nil, List.insertionSort, pmerge_nil_left]
  | cons a A ih =>
    rw [List.foldr_cons, ih, List.insertionSort, orderedInsert_pmerge]

/-- Stable sort of a concatenation is the left-preferring merge of the stable
sorts of the parts. -/
theorem insertionSort_append (X Y : List α) :
    List.insertionSort r (X ++ Y) =
      pmerge r (List.insertionSort r X) (List.insertionSort r Y) := by
  rw [insertionSort_append_eq_foldr, foldr_orderedInsert_eq_pmerge]

/-- Re-sorting a pre-sorted left part does not change a stable sort. -/
theorem insertionSort_sort_append (A B : List α) :
    List.insertionSort r (List.insertionSort r A ++ B) =
      List.insertionSort r (A ++ B) := by
  rw [insertionSort_append, insertionSort_append,
    (List.sorted_insertionSort r A).insertionSort_eq]

theorem orderedInsert_filter_pos (p : α → Bool) (a : α) (M : List α)
    (hs : List.Sorted r M) (ha : p a = true) :
    (List.orderedInsert r a M).filter p = List.orderedInsert r a (M.filter p) := by
  induction M with
  | nil => simp [ha]
  | cons c M ih =>
    simp only [List.orderedInsert]
    by_cases hac : r a c
    · rw [if_pos hac]
      have h : ∀ x ∈ (c :: M).filter p, r a x := by
        intro x hx
        rcases List.mem_cons.mp (List.mem_filter.mp hx).1 with h1 | h1
        · exact h1 ▸ hac
        · exact IsTrans.trans a c x hac (List.rel_of_sorted_cons hs x h1)
      rw [orderedInsert_all r a ((c :: M).filter p) h]
      simp [List.filter_cons, ha]
    · rw [if_neg hac, List.filter_cons, List.filter_cons]
      cases hpc : p c
      · simp only [Bool.false_eq_true, if_false]
        exact ih hs.of_cons
      · simp only [if_true]
        rw [ih hs.of_cons]
        simp only [List.orderedInsert, if_neg hac]

/-- Stable sorting commutes with filtering. -/
theorem filter_insertionSort (p : α → Bool) (l : List α) :
    (List.insertionSort r l).filter p = List.insertionSort r (l.filter p) := by
  induction l with
  | nil => rfl
  | cons x l ih =>
    rw [List.insertionSort, List.filter_cons]
    cases hpx : p x
    · rw [orderedInsert_filter_neg r p x _ hpx, ih]
      simp only [Bool.false_eq_true, if_false]
    · rw [orderedInsert_filter_pos r p x _ (List.sorted_insertionSort r l) hpx, ih]
      simp only [if_true, List.insertionSort]

end StableSort

/-! ## Sanitize/clamp layer and ingestion merge (process/route.ts) -/

/-- NUMERIC_12_2_MAX_ABS. -/
def NUMERIC_12_2_MAX_ABS : ℚ := Rat.divInt 999999999999 100

/-- DEFAULT_MAX_TRANSACTION_ABS. -/
def DEFAULT_MAX_TRANSACTION_ABS : ℚ := 5000000

/-- getMaxTransactionAbs.  The environment overrides are deployment inputs
outside the program text; the model takes the default ceiling. -/
def getMaxTransactionAbs : ℚ := DEFAULT_MAX_TRANSACTION_ABS

/-- Number(value.toFixed(2)) for a non-negative value: the integer closest to
100 * value, larger one on ties, divided by 100. -/
def round2nn (q : ℚ) : ℚ :=
  Rat.divInt (qfloor (qadd (qmulInt q 100) (Rat.divInt 1 2))) 100

/-- roundMoney from process/route.ts: Number(value.toFixed(2)).  toFixed
formats sign and magnitude separately, so ties round away from zero. -/
def roundMoney (q : ℚ) : ℚ :=
  if q < 0 then qneg (round2nn (qneg q)) else round2nn q

/-- clampNumeric12 (the isFinite guard is vacuous in the model). -/
def clampNumeric12 (q : ℚ) : ℚ :=
  roundMoney (min (max q (-NUMERIC_12_2_MAX_ABS)) NUMERIC_12_2_MAX_ABS)

/-- isIsoDate: the shape test \d\d\d\d-\d\d-\d\d anchored at both ends. -/
def isIsoDate (s : String) : Bool :=
  match s.data with
  | [y1, y2, y3, y4, h1, m1, m2, h2, d1, d2] =>
    y1.isDigit && y2.isDigit && y3.isDigit && y4.isDigit && h1 = '-' &&
      m1.isDigit && m2.isDigit && h2 = '-' && d1.isDigit && d2.isDigit
  | _ => false

/-- Field coercion step of sanitizeTransactionsForStorage. -/
def sanitizeMapStep (tx : ParsedTransaction) : ParsedTransaction :=
  { date := jsTrim tx.date
    description := jsTrim tx.description
    amount := tx.amount
    category :=
      let c := jsTrim tx.category
      if c = "" then "other" else c }

/-- sanitizeTransactionsForStorage. -/
def sanitizeTransactionsForStorage (transactions : List ParsedTransaction) :
    List ParsedTransaction :=
  (((((transactions.map sanitizeMapStep).filter
      (fun tx => isIsoDate tx.date)).filter
      (fun tx => tx.description ≠ "")).filter
      (fun tx => Rat.divInt 1 100 ≤ qabs tx.amount)).filter
      (fun tx => qabs tx.amount ≤ getMaxTransactionAbs)).map
      (fun tx => { tx with amount := roundMoney tx.amount })

/-- buildParseResultFromTransactions (sourceChunks omitted; they carry no
information any statement here mentions). -/
def buildParseResultFromTransactions (transactions : List ParsedTransaction) :
    Except String ParseResult :=
  let sanitizedTransactions := sanitizeTransactionsForStorage transactions
  if sanitizedTransactions = [] then
    .error "No valid transaction rows were found after parsing and sanitization"
  else
    let sorted := List.insertionSort dateRel sanitizedTransactions
    let totals :=
      sorted.foldl
        (fun acc tx =>
          if 0 < tx.amount then (qadd acc.1 tx.amount, acc.2)
          else (acc.1, qadd acc.2 (qabs tx.amount)))
        ((0 : ℚ), (0 : ℚ))
    let dflt : ParsedTransaction := { date := "", description := "", amount := 0, category := "" }
    .ok { transactions := sorted
          totalIncome := clampNumeric12 totals.1
          totalExpenses := clampNumeric12 totals.2
          dateRangeStart := (sorted.headD dflt).date
          dateRangeEnd := (sorted.getLastD dflt).date }

/-- Stored transactions: parsed fields plus the provenance tag. -/
structure StoredTransaction where
  date : String
  description : String
  amount : ℚ
  category : String
  source_document_id : Option String
  deriving DecidableEq, Repr

/-- normalizeStoredTransactions (the Array.isArray guard and the JSON field
coercions are represented on the already-shaped record type). -/
def normalizeStoredStep (tx : StoredTransaction) : StoredTransaction :=
  { date := jsTrim tx.date
    description := jsTrim tx.description
    amount := tx.amount
    category :=
      let c0 := if tx.category = "" then "other" else tx.category
      let c1 := jsTrim c0
      if c1 = "" then "other" else c1
    source_document_id :=
      match tx.source_document_id with
      | none => none
      | some s => let t := jsTrim s; if t = "" then none else some t }

def normalizeStoredTransactions (input : List StoredTransaction) : List StoredTransaction :=
  (((((input.map normalizeStoredStep).filter
      (fun tx => tx.date ≠ "" ∧ tx.description ≠ "")).filter
      (fun tx => isIsoDate tx.date)).filter
      (fun tx => Rat.divInt 1 100 ≤ qabs tx.amount)).filter
      (fun tx => qabs tx.amount ≤ getMaxTransactionAbs)).map
      (fun tx => { tx with amount := roundMoney tx.amount })

def storedDateRel (a b : StoredTransaction) : Prop := lexLe a.date.data b.date.data = true

instance : DecidableRel storedDateRel := fun _ _ => inferInstanceAs (Decidable (_ = true))

instance : IsTotal StoredTransaction storedDateRel :=
  ⟨fun a b => by
    rcases Bool.or_eq_true_iff.mp (lexLe_total a.date.data b.date.data) with h | h
    · exact Or.inl h
    · exact Or.inr h⟩

instance : IsTrans StoredTransaction storedDateRel := ⟨fun _ _ _ => lexLe_trans⟩

/-- mergeAllTransactions: drop the document's previous contribution, tag the
incoming rows, concatenate, stable-sort by date. -/
def mergeAllTransactions (existing incoming : List StoredTransaction)
    (sourceDocumentId : String) : List StoredTransaction :=
  let existingTransactions :=
    (normalizeStoredTransactions existing).filter
      (fun tx => tx.source_document_id ≠ some sourceDocumentId)
  let incomingTransactions :=
    (normalizeStoredTransactions incoming).map
      (fun tx => { tx with source_document_id := some sourceDocumentId })
  List.insertionSort storedDateRel (existingTransactions ++ incomingTransactions)

/-- Removal of the first occurrence of a pattern (String.prototype.replace
with a string pattern and empty replacement). -/
def removeFirstSub (pat : List Char) : List Char → List Char
  | [] => []
  | c :: rest =>
    if pat.isPrefixOf (c :: rest) then (c :: rest).drop pat.length
    else c :: removeFirstSub pat rest

/-- Merchant and summary shapes shared by the two aggregators. -/
structure MerchantEntry where
  name : String
  amount : ℚ
  count : Nat
  deriving DecidableEq, Repr

structure TransactionSummary where
  total_income : ℚ
  income_count : Nat
  income_by_source : List (String × ℚ)
  total_expenses : ℚ
  expense_count : Nat
  expenses_by_category : List (String × ℚ)
  top_merchants : List MerchantEntry
  deriving DecidableEq, Repr

/-- Comparator (a, b) => b.amount - a.amount: descending by amount. -/
def merchDesc (a b : MerchantEntry) : Prop := b.amount ≤ a.amount

instance : DecidableRel merchDesc := fun a b => inferInstanceAs (Decidable (b.amount ≤ a.amount))

instance : IsTotal MerchantEntry merchDesc := ⟨fun a b => le_total b.amount a.amount⟩

instance : IsTrans MerchantEntry merchDesc :=
  ⟨fun _ _ _ h1 h2 => le_trans h2 h1⟩

/-- State threaded through the summarize loop: running summary plus the
merchant record. -/
structure SummarizeState where
  total_income : ℚ
  income_count : Nat
  income_by_source : List (String × ℚ)
  total_expenses : ℚ
  expense_count : Nat
  expenses_by_category : List (String × ℚ)
  merchantMap : List (String × (ℚ × Nat))

def summarizeStep (st : SummarizeState) (tx : StoredTransaction) : SummarizeState :=
  if 0 < tx.amount then
    let source0 : String :=
      ⟨removeFirstSub "income_".data
        (if tx.category = "" then "income_other" else tx.category).data⟩
    let source := if source0 = "" then "other" else source0
    { st with
      total_income := qadd st.total_income tx.amount
      income_count := st.income_count + 1
      income_by_source :=
        alistSet st.income_by_source source
          (qadd ((alistGet? st.income_by_source source).getD 0) tx.amount) }
  else
    let expenseAmount := qabs tx.amount
    let merchant : String := ⟨tx.description.data.take 50⟩
    let prev := (alistGet? st.merchantMap merchant).getD (0, 0)
    { st with
      total_expenses := qadd st.total_expenses expenseAmount
      expense_count := st.expense_count + 1
      expenses_by_category :=
        alistSet st.expenses_by_category tx.category
          (qadd ((alistGet? st.expenses_by_category tx.category).getD 0) expenseAmount)
      merchantMap :=
        alistSet st.merchantMap merchant (qadd prev.1 expenseAmount, prev.2 + 1) }

/-- summarizeTransactions from process/route.ts: full recomputation of one
month's summary from its merged transaction list, top-10 merchants. -/
def summarizeTransactions (transactions : List StoredTransaction) : TransactionSummary :=
  let st :=
    transactions.foldl summarizeStep
      { total_income := 0, income_count := 0, income_by_source := []
        total_expenses := 0, expense_count := 0, expenses_by_category := []
        merchantMap := [] }
  { total_income := roundMoney st.total_income
    income_count := st.income_count
    income_by_source := st.income_by_source
    total_expenses := roundMoney st.total_expenses
    expense_count := st.expense_count
    expenses_by_category := st.expenses_by_category
    top_merchants :=
      (List.insertionSort merchDesc
        (st.merchantMap.map (fun kv => ⟨kv.1, kv.2.1, kv.2.2⟩))).take 10 }

/-! ## Lightweight monthly aggregator (transactions.ts) -/

/-- Raw per-month accumulator: the merchant field is still a record. -/
structure RawMonthly where
  total_income : ℚ
  income_count : Nat
  income_by_source : List (String × ℚ)
  total_expenses : ℚ
  expense_count : Nat
  expenses_by_category : List (String × ℚ)
  top_merchants : List (String × (ℚ × Nat))

def emptyRawMonthly : RawMonthly :=
  { total_income := 0, income_count := 0, income_by_source := []
    total_expenses := 0, expense_count := 0, expenses_by_category := []
    top_merchants := [] }

def monthKeyOf (tx : ParsedTransaction) : String :=
  ⟨tx.date.data.take 7 ++ ('-' :: '0' :: '1' :: [])⟩

def groupStep (raw : List (String × RawMonthly)) (tx : ParsedTransaction) :
    List (String × RawMonthly) :=
  let month := monthKeyOf tx
  let summary := (alistGet? raw month).getD emptyRawMonthly
  let summary' :=
    if 0 < tx.amount then
      let source0 : String := ⟨removeFirstSub "income_".data tx.category.data⟩
      let source := if source0 = "" then "other" else source0
      { summary with
        total_income := qadd summary.total_income tx.amount
        income_count := summary.income_count + 1
        income_by_source :=
          alistSet summary.income_by_source source
            (qadd ((alistGet? summary.income_by_source source).getD 0) tx.amount) }
    else
      let expenseAmount := qabs tx.amount
      let merchant : String := ⟨tx.description.data.take 50⟩
      let prev := (alistGet? summary.top_merchants merchant).getD (0, 0)
      { summary with
        total_expenses := qadd summary.total_expenses expenseAmount
        expense_count := summary.expense_count + 1
        expenses_by_category :=
          alistSet summary.expenses_by_category tx.category
            (qadd ((alistGet? summary.expenses_by_category tx.category).getD 0) expenseAmount)
        top_merchants :=
          alistSet summary.top_merchants merchant (qadd prev.1 expenseAmount, prev.2 + 1) }
  alistSet raw month summary'

/-- Per-month finalization of the lightweight aggregator: keep the totals,
convert the merchant record into the sorted, truncated top-5 list. -/
def finalizeMonthly (v : RawMonthly) : TransactionSummary :=
  { total_income := v.total_income
    income_count := v.income_count
    income_by_source := v.income_by_source
    total_expenses := v.total_expenses
    expense_count := v.expense_count
    expenses_by_category := v.expenses_by_category
    top_merchants :=
      (List.insertionSort merchDesc
        (v.top_merchants.map (fun m => ⟨m.1, m.2.1, m.2.2⟩))).take 5 }

/-- groupTransactionsByMonth from transactions.ts: month-keyed record of
summaries, each finalized with its top-5 merchant list. -/
def groupTransactionsByMonth (transactions : List ParsedTransaction) :
    List (String × TransactionSummary) :=
  let rawSummaries := transactions.foldl groupStep []
  rawSummaries.map (fun kv => (kv.1, finalizeMonthly kv.2))

/-! ## PDF heuristic extractor (csv-parser.ts)

The three regular expressions PDF_DATE_REGEX, PDF_AMOUNT_REGEX and the token
classifier regexes are realised as explicit character scanners with JS
leftmost/greedy matching; iterated (global) matching advances past each match
and is driven by a fuel argument bounded by the text length, keeping every
function structurally recursive. -/

/-- Exactly n leading digits. -/
def takeDigits : Nat → List Char → Option (List Char × List Char)
  | 0, l => some ([], l)
  | _ + 1, [] => none
  | n + 1, c :: rest =>
    if c.isDigit then (takeDigits n rest).map (fun dr => (c :: dr.1, dr.2)) else none

def sepSlashDash : List Char → Option (Char × List Char)
  | c :: rest => if c = '/' ∨ c = '-' then some (c, rest) else none
  | [] => none

def firstSome {γ β : Type} (f : γ → Option β) : List γ → Option β
  | [] => none
  | x :: rest =>
    match f x with
    | some y => some y
    | none => firstSome f rest

/-- One backtracking alternative of PDF_DATE_REGEX: a digits, separator,
b digits, separator, c digits, then a word boundary. -/
def matchDateCombo (l : List Char) (abc : Nat × Nat × Nat) :
    Option (List Char × List Char) := do
  let (d1, r1) ← takeDigits abc.1 l
  let (s1, r2) ← sepSlashDash r1
  let (d2, r3) ← takeDigits abc.2.1 r2
  let (s2, r4) ← sepSlashDash r3
  let (d3, r5) ← takeDigits abc.2.2 r4
  if bdryAfter r5 then some (d1 ++ s1 :: d2 ++ s2 :: d3, r5) else none

/-- Greedy backtracking order of the quantifiers of PDF_DATE_REGEX. -/
def dateCombos : List (Nat × Nat × Nat) :=
  [(2, 2, 4), (2, 2, 3), (2, 2, 2), (2, 1, 4), (2, 1, 3), (2, 1, 2),
   (1, 2, 4), (1, 2, 3), (1, 2, 2), (1, 1, 4), (1, 1, 3), (1, 1, 2)]

def matchDateAt (l : List Char) : Option (List Char × List Char) :=
  firstSome (matchDateCombo l) dateCombos

/-- Leftmost PDF_DATE_REGEX match, tracking the previous character for the
leading word boundary. -/
def findDateAux (prev : Option Char) : List Char → Option (List Char × List Char)
  | [] => none
  | c :: rest =>
    match (if bdry prev then matchDateAt (c :: rest) else none) with
    | some tr => some tr
    | none => findDateAux (some c) rest

/-- hasDateToken (PDF_DATE_REGEX.test). -/
def hasDateToken (text : String) : Bool := (findDateAux none text.data).isSome

/-- getFirstDateToken. -/
def getFirstDateToken (text : String) : Option String :=
  (findDateAux none text.data).map (fun tr => ⟨tr.1⟩)

/-- Global matching of PDF_DATE_TOKEN_REGEX. -/
def allDateAux (fuel : Nat) (prev : Option Char) (l : List Char) : List (List Char) :=
  match fuel with
  | 0 => []
  | fuel + 1 =>
    match findDateAux prev l with
    | none => []
    | some (tok, rem) => tok :: allDateAux fuel tok.getLast? rem

def allDateTokens (text : String) : List String :=
  (allDateAux (text.data.length + 1) none text.data).map (fun t => ⟨t⟩)

/-- Greedy [\d,]* run. -/
def takeDigitsComma : List Char → List Char × List Char
  | [] => ([], [])
  | c :: rest =>
    if c.isDigit ∨ c = ',' then
      let dr := takeDigitsComma rest
      (c :: dr.1, dr.2)
    else ([], c :: rest)

/-- Greedy optional single character. -/
def optChar (ch : Char) : List Char → List Char × List Char
  | [] => ([], [])
  | c :: rest => if c = ch then ([c], rest) else ([], c :: rest)

/-- Greedy optional fraction of exactly two digits. -/
def optDecimal : List Char → List Char × List Char
  | '.' :: d1 :: d2 :: rest =>
    if d1.isDigit ∧ d2.isDigit then (['.', d1, d2], rest) else ([], '.' :: d1 :: d2 :: rest)
  | l => ([], l)

def crdr2 (c1 c2 : Char) : Bool :=
  (lowerChar c1 = 'c' ∨ lowerChar c1 = 'd') && lowerChar c2 = 'r'

/-- Greedy optional whitespace-then-CR-or-DR group (case-insensitive). -/
def optCrDr : List Char → List Char × List Char
  | a :: b :: c :: rest =>
    if jsWs a ∧ crdr2 b c then ([a, b, c], rest)
    else if crdr2 a b then ([a, b], c :: rest)
    else ([], a :: b :: c :: rest)
  | a :: b :: rest => if crdr2 a b then ([a, b], rest) else ([], a :: b :: rest)
  | l => ([], l)

/-- One PDF_AMOUNT_REGEX match attempt at the head of the list. -/
def matchAmountAt (l : List Char) : Option (List Char × List Char) :=
  let p1 := optChar '-' l
  let p2 := optChar '$' p1.2
  let p3 := optChar '(' p2.2
  match p3.2 with
  | c :: r4 =>
    if c.isDigit then
      let pd := takeDigitsComma r4
      let pe := optDecimal pd.2
      let pp := optChar ')' pe.2
      let pm := optChar '-' pp.2
      let pc := optCrDr pm.2
      some (p1.1 ++ p2.1 ++ p3.1 ++ c :: pd.1 ++ pe.1 ++ pp.1 ++ pm.1 ++ pc.1, pc.2)
    else none
  | [] => none

/-- Global matching of PDF_AMOUNT_REGEX. -/
def amountMatchesAux (fuel : Nat) : List Char → List (List Char)
  | [] => []
  | c :: rest =>
    match fuel with
    | 0 => []
    | fuel + 1 =>
      match matchAmountAt (c :: rest) with
      | some (tok, rem) => tok :: amountMatchesAux fuel rem
      | none => amountMatchesAux fuel rest

def pdfAmountMatches (text : String) : List String :=
  (amountMatchesAux (text.data.length + 1) text.data).map (fun t => ⟨t⟩)

/-- safeParseAmount: parseAmount with the exception swallowed. -/
def safeParseAmount (value : String) : Option ℚ :=
  match parseAmount (.str value) with
  | .ok v => some v
  | .error _ => none

/-- Occurrence test for digits-dot-two-digits followed by a word boundary. -/
def decimal2Aux (prev : Option Char) : List Char → Bool
  | [] => false
  | c :: rest =>
    (c = '.' &&
      (match prev with
       | some p => p.isDigit
       | none => false) &&
      (match rest with
       | d1 :: d2 :: r2 => d1.isDigit && d2.isDigit && bdryAfter r2
       | _ => false))
    || decimal2Aux (some c) rest

/-- isLikelyAmountToken. -/
def isLikelyAmountToken (value : String) : Bool :=
  let token := jsTrim value
  if token = "" then false
  else if token.data.length ≤ 2 && token.data.all (·.isDigit) then false
  else if token.data.length = 4 && token.data.all (·.isDigit) then false
  else if token.data.any (fun c => c = '/' ∨ c = '-') then false
  else
    let stronglyAmountLike :=
      token.data.any (fun c => c = '.' ∨ c = '$' ∨ c = ',' ∨ c = '(' ∨ c = ')' ∨ c = '-')
        || hasWordCI ['c', 'r'] token || hasWordCI ['d', 'r'] token
        || decimal2Aux none token.data
    let plainIntegerAmount := 3 ≤ token.data.length && token.data.all (·.isDigit)
    if ¬ (stronglyAmountLike = true) ∧ ¬ (plainIntegerAmount = true) then false
    else (safeParseAmount token).isSome

/-- extractPdfAmountTokens. -/
def extractPdfAmountTokens (text : String) : List String :=
  ((pdfAmountMatches text).map jsTrim).filter isLikelyAmountToken

/-- Global literal replacement by a single space (the escaped-token RegExp
replace in sanitizePdfDescription). -/
def replaceAllLitAux (fuel : Nat) (pat : List Char) : List Char → List Char
  | [] => []
  | c :: rest =>
    match fuel with
    | 0 => c :: rest
    | fuel + 1 =>
      if pat ≠ [] ∧ pat.isPrefixOf (c :: rest) then
        ' ' :: replaceAllLitAux fuel pat ((c :: rest).drop pat.length)
      else c :: replaceAllLitAux fuel pat rest

def replaceAllLit (pat : List Char) (l : List Char) : List Char :=
  replaceAllLitAux (l.length + 1) pat l

/-- Whitespace-run collapsing (replace \s+ runs by one space). -/
def collapseWsAux : Bool → List Char → List Char
  | _, [] => []
  | prevWs, c :: rest =>
    if jsWs c then
      (if prevWs then collapseWsAux true rest else ' ' :: collapseWsAux true rest)
    else c :: collapseWsAux false rest

/-- Comparator (a, b) => b.length - a.length: descending by length. -/
def lenDesc (a b : String) : Prop := b.data.length ≤ a.data.length

instance : DecidableRel lenDesc := fun a b =>
  inferInstanceAs (Decidable (b.data.length ≤ a.data.length))

instance : IsTotal String lenDesc := ⟨fun a b => le_total b.data.length a.data.length⟩

instance : IsTrans String lenDesc := ⟨fun _ _ _ h1 h2 => le_trans h2 h1⟩

/-- sanitizePdfDescription: blank out every date token (all matches, or the
fallback token), then every amount token longest-first, collapse whitespace
and trim. -/
def sanitizePdfDescription (text : String) (dateToken : String)
    (amountTokens : List String) : String :=
  let dateTokens :=
    match allDateTokens text with
    | [] => [dateToken]
    | ts => ts
  let cleaned := dateTokens.foldl (fun acc tok => replaceAllLit tok.data acc) text.data
  let sortedAmountTokens := List.insertionSort lenDesc amountTokens
  let cleaned := sortedAmountTokens.foldl (fun acc tok => replaceAllLit tok.data acc) cleaned
  ⟨trimL (collapseWsAux false cleaned)⟩

/-- page-number boilerplate test: literal page-space, digits, space-of-space,
digits. -/
def pageOfAt (l : List Char) : Bool :=
  if ('p' :: 'a' :: 'g' :: 'e' :: ' ' :: []).isPrefixOf l then
    let r := l.drop 5
    let d1 := digitsAux 0 0 r
    if 1 ≤ d1.2.1 ∧ (' ' :: 'o' :: 'f' :: ' ' :: []).isPrefixOf d1.2.2 then
      1 ≤ (digitsAux 0 0 (d1.2.2.drop 4)).2.1
    else false
  else false

def pageOfAux : List Char → Bool
  | [] => false
  | c :: rest => pageOfAt (c :: rest) || pageOfAux rest

/-- Anchored head test: first word, one-or-more whitespace, second word. -/
def headThenWs (w1 w2 : List Char) (l : List Char) : Bool :=
  if w1.isPrefixOf l then
    match l.drop w1.length with
    | c :: rest => jsWs c && w2.isPrefixOf (rest.dropWhile jsWs)
    | [] => false
  else false

/-- PDF_NON_TRANSACTION_PATTERNS applied to the (not yet lower-cased)
description; each regex is case-insensitive so the subject is lower-cased
here. -/
def nonTransactionPatterns (s : String) : Bool :=
  let low := lowerL s.data
  hasSubAux "beginning balance".data low ||
  hasSubAux "ending balance".data low ||
  hasSubAux "available balance".data low ||
  hasSubAux "daily balance".data low ||
  hasSubAux "statement period".data low ||
  (["deposits", "credits", "withdrawals", "debits", "fees", "interest"].any
    (fun w => hasSubAux ("total " ++ w).data low)) ||
  hasSubAux "account number".data low ||
  hasSubAux "account summary".data low ||
  pageOfAux low ||
  headThenWs "date".data "description".data low ||
  headThenWs "description".data "amount".data low ||
  hasSubAux "transaction total".data low ||
  hasSubAux "transactions total".data low

/-- isLikelyNonTransactionDescription. -/
def isLikelyNonTransactionDescription (description : String) : Bool :=
  let normalized := jsTrim description
  if normalized = "" then true
  else if normalized.data.length < 3 then true
  else if !(normalized.data.any (·.isAlpha)) then true
  else nonTransactionPatterns normalized

/-- looksLikePositiveDescription: the credit-keyword word-boundary test. -/
def looksLikePositiveDescription (text : String) : Bool :=
  ["credit", "deposit", "payroll", "salary", "refund", "interest", "dividend",
    "transfer in", "ach credit"].any
    (fun w => hasWordAux w.data none (lowerL text.data))

/-- The balance test of buildPdfTransactionFromText. -/
def balanceTest (text : String) : Bool := hasSubCI "balance" text

/-- Amount-token selection with the parse fallback (lines 477-492 of
csv-parser.ts): last token, or second-to-last when the text mentions a
balance; if the chosen token does not parse, fall back to the last parseable
one. -/
def selectPdfAmount (text : String) (amountTokens : List String) : Option (String × ℚ) :=
  let selected0 :=
    if balanceTest text ∧ 2 ≤ amountTokens.length then
      amountTokens.getD (amountTokens.length - 2) ""
    else amountTokens.getLastD ""
  match safeParseAmount selected0 with
  | some v => some (selected0, v)
  | none =>
    (amountTokens.filterMap (fun t => (safeParseAmount t).map (fun v => (t, v)))).getLast?

/-- buildPdfTransactionFromText. -/
def buildPdfTransactionFromText (text : String) (fallbackDateToken : Option String) :
    Option ParsedTransaction :=
  let dateTokenOpt :=
    match fallbackDateToken with
    | some t => if t = "" then getFirstDateToken text else some t
    | none => getFirstDateToken text
  match dateTokenOpt with
  | none => none
  | some dateToken =>
    match normalizeDate (.str dateToken) with
    | .error _ => none
    | .ok normalizedDate =>
      let amountTokens := extractPdfAmountTokens text
      if amountTokens = [] then none
      else
        match selectPdfAmount text amountTokens with
        | none => none
        | some (selectedAmountToken, parsedAmount) =>
          let description := sanitizePdfDescription text dateToken amountTokens
          if isLikelyNonTransactionDescription description then none
          else
            let amount :=
              if hasAmountSign selectedAmountToken || looksLikePositiveDescription description
                  || looksLikePositiveDescription text then
                parsedAmount
              else qneg (qabs parsedAmount)
            some { date := normalizedDate, description := description, amount := amount,
                   category := classifyCategory description amount }

/-! ## Headerless simple-row extraction and PDF strategy merge -/

/-- Anchored looksLikeAmountToken regex: optional dash, dollar, parenthesis;
comma-grouped or plain digit core; optional two-digit fraction, closing
parenthesis, dash, CR/DR; end of string. -/
def llatTail (l : List Char) : Bool :=
  let p1 := optDecimal l
  let p2 := optChar ')' p1.2
  let p3 := optChar '-' p2.2
  let p4 := optCrDr p3.2
  p4.2.isEmpty

def llatGroupsMore (fuel : Nat) (r : List Char) : Bool :=
  match fuel with
  | 0 => false
  | fuel + 1 =>
    match r with
    | ',' :: rest =>
      match takeDigits 3 rest with
      | some (_, r2) => llatGroupsMore fuel r2
      | none => llatTail r
    | _ => llatTail r

/-- At least one comma group, greedily extended, then the tail. -/
def llatGroups (r : List Char) : Bool :=
  match r with
  | ',' :: rest =>
    match takeDigits 3 rest with
    | some (_, r2) => llatGroupsMore (r2.length + 1) r2
    | none => false
  | _ => false

def llatA (k : Nat) (l : List Char) : Bool :=
  match takeDigits k l with
  | none => false
  | some (_, r) => llatGroups r

def llatNum (l : List Char) : Bool :=
  llatA 3 l || llatA 2 l || llatA 1 l ||
  (let d := digitsAux 0 0 l
   1 ≤ d.2.1 && llatTail d.2.2)

def looksLikeAmountToken (value : String) : Bool :=
  let l := (jsTrim value).data
  let p1 := optChar '-' l
  let p2 := optChar '$' p1.2
  let p3 := optChar '(' p2.2
  llatNum p3.2

/-- Right-to-left search for the last amount-looking cell, never index 0. -/
def findAmountIdx (cells : List String) : Nat → Option Nat
  | 0 => none
  | i + 1 =>
    if looksLikeAmountToken (cells.getD (i + 1) "") then some (i + 1)
    else findAmountIdx cells i

def joinSpace : List String → List Char
  | [] => []
  | [s] => s.data
  | s :: rest => s.data ++ ' ' :: joinSpace rest

/-- parseSimpleRow: first cell date, last amount-looking cell amount, middle
cells description; unsigned amounts default to expenses. -/
def parseSimpleRow (row : List CellValue) : Option ParsedTransaction :=
  let cells := (row.map asCleanString).filter (· ≠ "")
  if cells.length < 3 then none
  else
    match normalizeDate (.str (cells.getD 0 "")) with
    | .error _ => none
    | .ok normalizedDate =>
      match findAmountIdx cells (cells.length - 1) with
      | none => none
      | some amountIndex =>
        let amountToken := cells.getD amountIndex ""
        match safeParseAmount amountToken with
        | none => none
        | some parsedAmount =>
          let description := jsTrim ⟨joinSpace ((cells.drop 1).take (amountIndex - 1))⟩
          if description = "" then none
          else
            let amount :=
              if hasAmountSign amountToken || looksLikePositiveDescription description then
                parsedAmount
              else qneg (qabs parsedAmount)
            some { date := normalizedDate, description := description, amount := amount,
                   category := classifyCategory description amount }

/-- toFixed(2) rendering (sign and magnitude treated separately as in the
spec of Number.prototype.toFixed). -/
def fixed2nn (q : ℚ) : String :=
  let n := (qfloor (qadd (qmulInt q 100) (Rat.divInt 1 2))).toNat
  ⟨natRepr (n / 100) ++ '.' :: pad2 (n % 100)⟩

def toFixed2 (q : ℚ) : String :=
  if q < 0 then ⟨'-' :: (fixed2nn (qneg q)).data⟩ else fixed2nn q

/-- buildPdfTransactionKey: date, lower-cased description, amount to two
decimals, lower-cased category. -/
def buildPdfTransactionKey (tx : ParsedTransaction) : String :=
  ⟨tx.date.data ++ '|' :: (jsToLower tx.description).data ++
    '|' :: (toFixed2 tx.amount).data ++ '|' :: (jsToLower tx.category).data⟩

/-- buildTransactionCountMap: per-key representative transaction and
occurrence count, insertion-ordered. -/
def countMapStep (countMap : List (String × (ParsedTransaction × Nat)))
    (tx : ParsedTransaction) : List (String × (ParsedTransaction × Nat)) :=
  let key := buildPdfTransactionKey tx
  match alistGet? countMap key with
  | none => alistSet countMap key (tx, 1)
  | some e => alistSet countMap key (e.1, e.2 + 1)

def buildTransactionCountMap (transactions : List ParsedTransaction) :
    List (String × (ParsedTransaction × Nat)) :=
  transactions.foldl countMapStep []

/-- One merged-map update from one strategy entry: keep the per-key maximum
count (strictly greater replaces). -/
def mergeStep (merged : List (String × (ParsedTransaction × Nat)))
    (kv : String × (ParsedTransaction × Nat)) : List (String × (ParsedTransaction × Nat)) :=
  match alistGet? merged kv.1 with
  | none => alistSet merged kv.1 kv.2
  | some e => if e.2 < kv.2.2 then alistSet merged kv.1 kv.2 else merged

/-- mergePdfStrategies: fold every strategy's count map into the merged map,
then emit each representative maxCount times. -/
def mergePdfStrategies (strategies : List (List ParsedTransaction)) :
    List ParsedTransaction :=
  let merged :=
    strategies.foldl
      (fun merged strategyTransactions =>
        (buildTransactionCountMap strategyTransactions).foldl mergeStep merged)
      []
  (merged.map (fun kv => List.replicate kv.2.2 kv.2.1)).flatten

/-! ## Elementary facts about trimming, rounding and association lists -/

theorem head?_dropWhile_ws {l : List Char} {c : Char}
    (h : (List.dropWhile jsWs l).head? = some c) : jsWs c = false := by
  induction l with
  | nil => simp at h
  | cons x xs ih =>
    rw [List.dropWhile_cons] at h
    by_cases hx : jsWs x
    · exact ih (by simpa [hx] using h)
    · rw [if_neg (by simpa using hx)] at h
      simp only [List.head?_cons, Option.some.injEq] at h
      subst h
      simpa using hx

theorem trimL_prefix_dropWhile (l : List Char) :
    trimL l <+: List.dropWhile jsWs l := by
  rw [trimL]
  have h := List.dropWhile_suffix (l := (List.dropWhile jsWs l).reverse) jsWs
  have h2 := h.reverse
  rwa [List.reverse_reverse] at h2

theorem head?_trimL_ws {l : List Char} {c : Char} (h : (trimL l).head? = some c) :
    jsWs c = false := by
  rcases trimL_prefix_dropWhile l with ⟨t, ht⟩
  cases htr : trimL l with
  | nil => rw [htr] at h; simp at h
  | cons c0 rest =>
    rw [htr] at h ht
    simp only [List.head?_cons, Option.some.injEq] at h
    subst h
    exact head?_dropWhile_ws (l := l) (by rw [← ht]; rfl)

theorem getLast?_trimL_ws {l : List Char} {c : Char} (h : (trimL l).getLast? = some c) :
    jsWs c = false := by
  rw [trimL, List.getLast?_reverse] at h
  exact head?_dropWhile_ws h

theorem trimL_idem (l : List Char) : trimL (trimL l) = trimL l := by
  have hdrop : List.dropWhile jsWs (trimL l) = trimL l := by
    cases htr : trimL l with
    | nil => rfl
    | cons c rest =>
      have hc : jsWs c = false := head?_trimL_ws (l := l) (by rw [htr]; rfl)
      rw [List.dropWhile_cons, hc]
      simp
  have key : trimL (trimL l) = (List.dropWhile jsWs ((trimL l).reverse)).reverse := by
    rw [show trimL (trimL l) =
        ((((trimL l).dropWhile jsWs).reverse).dropWhile jsWs).reverse from rfl, hdrop]
  rw [key]
  cases hrt : (trimL l).reverse with
  | nil =>
    have h0 : trimL l = [] := by
      have := congrArg List.reverse hrt
      rwa [List.reverse_reverse] at this
    rw [h0]
    rfl
  | cons c rest =>
    have hc : jsWs c = false := by
      apply getLast?_trimL_ws (l := l)
      rw [← List.head?_reverse, hrt]
      rfl
    rw [List.dropWhile_cons, hc]
    simp only [Bool.false_eq_true, if_false]
    calc (c :: rest).reverse = ((trimL l).reverse).reverse := by rw [hrt]
      _ = trimL l := List.reverse_reverse _

theorem jsTrim_idem (s : String) : jsTrim (jsTrim s) = jsTrim s := by
  simp [jsTrim, trimL_idem]

theorem mem_dropWhile_ws {l : List Char} {c : Char} (hc : jsWs c = false) (h : c ∈ l) :
    c ∈ List.dropWhile jsWs l := by
  induction l with
  | nil => simp at h
  | cons x xs ih =>
    rw [List.dropWhile_cons]
    by_cases hx : jsWs x
    · rw [if_pos hx]
      rcases List.mem_cons.mp h with h1 | h1
      · subst h1; rw [hc] at hx; simp at hx
      · exact ih h1
    · rw [if_neg (by simpa using hx)]
      exact h

theorem mem_trimL {l : List Char} {c : Char} (hc : jsWs c = false) (h : c ∈ l) :
    c ∈ trimL l := by
  rw [trimL]
  rw [List.mem_reverse]
  exact mem_dropWhile_ws hc (by rw [List.mem_reverse]; exact mem_dropWhile_ws hc h)

theorem round2nn_eq (q : ℚ) : round2nn q = ((⌊q * 100 + 1 / 2⌋ : ℤ) : ℚ) / 100 := by
  rw [round2nn, qfloor_eq, qadd_eq, qmulInt_eq, Rat.divInt_eq_div, Rat.divInt_eq_div]
  norm_num

theorem round2nn_cast_div (k : ℤ) : round2nn ((k : ℚ) / 100) = (k : ℚ) / 100 := by
  rw [round2nn_eq]
  have h1 : ((k : ℚ) / 100) * 100 = (k : ℚ) := by
    field_simp
  rw [h1]
  have h2 : ⌊(k : ℚ) + 1 / 2⌋ = k := by
    rw [Int.floor_int_add]
    norm_num
  rw [h2]

theorem round2nn_nonneg {q : ℚ} (hq : 0 ≤ q) : 0 ≤ round2nn q := by
  rw [round2nn_eq]
  have : (0 : ℤ) ≤ ⌊q * 100 + 1 / 2⌋ := by
    rw [Int.le_floor]
    push_cast
    nlinarith
  positivity

theorem roundMoney_cast_div (k : ℤ) : roundMoney ((k : ℚ) / 100) = (k : ℚ) / 100 := by
  rw [roundMoney]
  by_cases hk : (k : ℚ) / 100 < 0
  · rw [if_pos hk, qneg_eq, qneg_eq, ← neg_div, ← Int.cast_neg, round2nn_cast_div]
    push_cast
    ring
  · rw [if_neg hk, round2nn_cast_div]

theorem roundMoney_eq_div (q : ℚ) : ∃ k : ℤ, roundMoney q = (k : ℚ) / 100 := by
  rw [roundMoney]
  by_cases hq : q < 0
  · refine ⟨-⌊qneg q * 100 + 1 / 2⌋, ?_⟩
    rw [if_pos hq, qneg_eq, round2nn_eq, qneg_eq]
    push_cast
    ring
  · exact ⟨⌊q * 100 + 1 / 2⌋, by rw [if_neg hq, round2nn_eq]⟩

theorem roundMoney_idem (q : ℚ) : roundMoney (roundMoney q) = roundMoney q := by
  obtain ⟨k, hk⟩ := roundMoney_eq_div q
  rw [hk, roundMoney_cast_div]

theorem roundMoney_abs (q : ℚ) : |roundMoney q| = round2nn |q| := by
  rw [roundMoney]
  by_cases hq : q < 0
  · rw [if_pos hq, qneg_eq, qneg_eq, abs_neg,
      abs_of_nonneg (round2nn_nonneg (by linarith)), abs_of_neg hq]
  · rw [if_neg hq, abs_of_nonneg (round2nn_nonneg (by linarith)),
      abs_of_nonneg (by linarith)]

theorem round2nn_le_of_le {q b : ℚ} (hb : ∃ m : ℤ, b = (m : ℚ) / 100) (h : q ≤ b) :
    round2nn q ≤ b := by
  obtain ⟨m, rfl⟩ := hb
  rw [round2nn_eq]
  have : ⌊q * 100 + 1 / 2⌋ ≤ m := by
    have : (⌊q * 100 + 1 / 2⌋ : ℚ) ≤ q * 100 + 1 / 2 := Int.floor_le _
    have h2 : ⌊q * 100 + 1 / 2⌋ < m + 1 := by
      rw [Int.floor_lt]
      push_cast
      nlinarith
    omega
  have h3 : ((⌊q * 100 + 1 / 2⌋ : ℤ) : ℚ) ≤ (m : ℚ) := by exact_mod_cast this
  linarith

theorem le_round2nn_of_le {q b : ℚ} (hb : ∃ m : ℤ, b = (m : ℚ) / 100) (h : b ≤ q) :
    b ≤ round2nn q := by
  obtain ⟨m, rfl⟩ := hb
  rw [round2nn_eq]
  have : m ≤ ⌊q * 100 + 1 / 2⌋ := by
    rw [Int.le_floor]
    push_cast
    nlinarith
  have h3 : (m : ℚ) ≤ ((⌊q * 100 + 1 / 2⌋ : ℤ) : ℚ) := by exact_mod_cast this
  linarith

section AListLemmas

variable {β : Type}

theorem alistGet?_set_self (m : List (String × β)) (k : String) (v : β) :
    alistGet? (alistSet m k v) k = some v := by
  induction m with
  | nil => simp [alistSet, alistGet?]
  | cons e m ih =>
    rw [alistSet]
    by_cases he : e.1 = k
    · simp [alistGet?, he]
    · simp only [if_neg he, alistGet?]
      exact ih

theorem alistGet?_set_ne (m : List (String × β)) (k k' : String) (v : β) (h : k ≠ k') :
    alistGet? (alistSet m k v) k' = alistGet? m k' := by
  induction m with
  | nil => simp [alistSet, alistGet?, h]
  | cons e m ih =>
    rw [alistSet]
    by_cases he : e.1 = k
    · simp only [if_pos he, alistGet?]
      rw [if_neg (by rw [he]; exact h), if_neg (by rw [he]; exact h)]
    · simp only [if_neg he, alistGet?]
      by_cases he' : e.1 = k'
      · rw [if_pos he', if_pos he']
      · rw [if_neg he', if_neg he']
        exact ih

theorem alistGet?_eq_some_mem {m : List (String × β)} {k : String} {v : β}
    (h : alistGet? m k = some v) : (k, v) ∈ m := by
  induction m with
  | nil => simp [alistGet?] at h
  | cons e m ih =>
    rw [alistGet?] at h
    by_cases he : e.1 = k
    · rw [if_pos he] at h
      simp only [Option.some.injEq] at h
      subst h
      rw [← he]
      exact List.mem_cons_self e m
    · rw [if_neg he] at h
      exact List.mem_cons_of_mem e (ih h)

theorem alistGet?_eq_none_of_not_mem {m : List (String × β)} {k : String}
    (h : k ∉ m.map Prod.fst) : alistGet? m k = none := by
  induction m with
  | nil => rfl
  | cons e m ih =>
    rw [alistGet?]
    simp only [List.map_cons, List.mem_cons] at h
    push_neg at h
    rw [if_neg (fun he => h.1 he.symm)]
    exact ih h.2

theorem mem_alistSet {m : List (String × β)} {k : String} {v : β} {e : String × β}
    (h : e ∈ alistSet m k v) : e = (k, v) ∨ e ∈ m := by
  induction m with
  | nil => simpa [alistSet] using h
  | cons e0 m ih =>
    rw [alistSet] at h
    by_cases he : e0.1 = k
    · rcases List.mem_cons.mp (by simpa [he] using h) with h1 | h1
      · left; exact h1
      · right; exact List.mem_cons_of_mem e0 h1
    · rcases List.mem_cons.mp (by simpa [he] using h) with h1 | h1
      · right; rw [h1]; exact List.mem_cons_self e0 m
      · rcases ih h1 with h2 | h2
        · left; exact h2
        · right; exact List.mem_cons_of_mem e0 h2

theorem alistSet_keys_nodup {m : List (String × β)} (hm : (m.map Prod.fst).Nodup)
    (k : String) (v : β) : ((alistSet m k v).map Prod.fst).Nodup := by
  induction m with
  | nil => simp [alistSet]
  | cons e m ih =>
    rw [alistSet]
    simp only [List.map_cons, List.nodup_cons] at hm
    by_cases he : e.1 = k
    · rw [if_pos he]
      simp only [List.map_cons, List.nodup_cons]
      exact ⟨hm.1, hm.2⟩
    · rw [if_neg he]
      simp only [List.map_cons, List.nodup_cons]
      constructor
      · intro hmem
        rcases List.mem_map.mp hmem with ⟨e2, he2, hfst⟩
        rcases mem_alistSet he2 with h1 | h1
        · rw [h1] at hfst
          exact he hfst.symm
        · exact hm.1 (hfst ▸ List.mem_map_of_mem Prod.fst h1)
      · exact ih hm.2

end AListLemmas

/-! ## Counting machinery for the PDF strategy merge -/

/-- Number of transactions in a list carrying a given merge key. -/
def countKey (l : List ParsedTransaction) (k : String) : Nat :=
  (l.filter (fun tx => buildPdfTransactionKey tx = k)).length

/-- Per-key count stored in a count/merged map. -/
def getCount (m : List (String × (ParsedTransaction × Nat))) (k : String) : Nat :=
  match alistGet? m k with
  | some e => e.2
  | none => 0

/-- Invariant of count and merged maps: keys are distinct and every entry's
representative carries the entry's key. -/
def GoodMap (m : List (String × (ParsedTransaction × Nat))) : Prop :=
  (m.map Prod.fst).Nodup ∧ ∀ e ∈ m, buildPdfTransactionKey e.2.1 = e.1

theorem goodMap_nil : GoodMap [] := ⟨List.nodup_nil, by simp⟩

theorem countKey_cons (tx : ParsedTransaction) (l : List ParsedTransaction) (k : String) :
    countKey (tx :: l) k =
      (if buildPdfTransactionKey tx = k then 1 else 0) + countKey l k := by
  rw [countKey, countKey, List.filter_cons]
  by_cases h : buildPdfTransactionKey tx = k
  · simp [h, Nat.add_comm]
  · simp [h]

theorem getCount_set (m : List (String × (ParsedTransaction × Nat))) (k k' : String)
    (v : ParsedTransaction × Nat) :
    getCount (alistSet m k v) k' = if k = k' then v.2 else getCount m k' := by
  by_cases h : k = k'
  · subst h
    rw [getCount, alistGet?_set_self, if_pos rfl]
  · rw [getCount, alistGet?_set_ne m k k' v h, if_neg h]
    rfl

theorem countMapStep_good {m : List (String × (ParsedTransaction × Nat))}
    (hm : GoodMap m) (tx : ParsedTransaction) : GoodMap (countMapStep m tx) := by
  rw [countMapStep]
  cases hg : alistGet? m (buildPdfTransactionKey tx) with
  | none =>
    exact ⟨alistSet_keys_nodup hm.1 _ _, by
      intro e he
      rcases mem_alistSet he with h1 | h1
      · rw [h1]
      · exact hm.2 e h1⟩
  | some e0 =>
    refine ⟨alistSet_keys_nodup hm.1 _ _, ?_⟩
    intro e he
    rcases mem_alistSet he with h1 | h1
    · rw [h1]
      exact hm.2 (buildPdfTransactionKey tx, e0) (alistGet?_eq_some_mem hg)
    · exact hm.2 e h1

theorem countMapStep_count {m : List (String × (ParsedTransaction × Nat))}
    (tx : ParsedTransaction) (k : String) :
    getCount (countMapStep m tx) k =
      (if buildPdfTransactionKey tx = k then 1 else 0) + getCount m k := by
  rw [countMapStep]
  cases hg : alistGet? m (buildPdfTransactionKey tx) with
  | none =>
    rw [getCount_set]
    by_cases h : buildPdfTransactionKey tx = k
    · rw [if_pos h, if_pos h]
      rw [getCount, ← h, hg]
      rfl
    · rw [if_neg h, if_neg h, Nat.zero_add]
  | some e0 =>
    rw [getCount_set]
    by_cases h : buildPdfTransactionKey tx = k
    · rw [if_pos h, if_pos h]
      rw [getCount, ← h, hg]
      exact Nat.add_comm e0.2 1
    · rw [if_neg h, if_neg h, Nat.zero_add]

theorem countMap_fold_count (s : List ParsedTransaction)
    (m : List (String × (ParsedTransaction × Nat))) (k : String) :
    getCount (s.foldl countMapStep m) k = getCount m k + countKey s k := by
  induction s generalizing m with
  | nil => simp [countKey]
  | cons tx s ih =>
    rw [List.foldl_cons, ih, countMapStep_count, countKey_cons]
    omega

theorem countMap_fold_good (s : List ParsedTransaction)
    {m : List (String × (ParsedTransaction × Nat))} (hm : GoodMap m) :
    GoodMap (s.foldl countMapStep m) := by
  induction s generalizing m with
  | nil => exact hm
  | cons tx s ih => exact ih (countMapStep_good hm tx)

theorem buildTransactionCountMap_count (s : List ParsedTransaction) (k : String) :
    getCount (buildTransactionCountMap s) k = countKey s k := by
  rw [buildTransactionCountMap, countMap_fold_count]
  rw [show getCount [] k = 0 from rfl, Nat.zero_add]

theorem buildTransactionCountMap_good (s : List ParsedTransaction) :
    GoodMap (buildTransactionCountMap s) :=
  countMap_fold_good s goodMap_nil

theorem mergeStep_eq_none {m : List (String × (ParsedTransaction × Nat))}
    {kv : String × (ParsedTransaction × Nat)} (h : alistGet? m kv.1 = none) :
    mergeStep m kv = alistSet m kv.1 kv.2 := by
  rw [mergeStep, h]

theorem mergeStep_eq_some {m : List (String × (ParsedTransaction × Nat))}
    {kv : String × (ParsedTransaction × Nat)} {e0 : ParsedTransaction × Nat}
    (h : alistGet? m kv.1 = some e0) :
    mergeStep m kv = if e0.2 < kv.2.2 then alistSet m kv.1 kv.2 else m := by
  rw [mergeStep, h]

theorem mergeStep_good {m : List (String × (ParsedTransaction × Nat))}
    (hm : GoodMap m) {kv : String × (ParsedTransaction × Nat)}
    (hkv : buildPdfTransactionKey kv.2.1 = kv.1) : GoodMap (mergeStep m kv) := by
  cases hg : alistGet? m kv.1 with
  | none =>
    rw [mergeStep_eq_none hg]
    refine ⟨alistSet_keys_nodup hm.1 _ _, ?_⟩
    intro e he
    rcases mem_alistSet he with h1 | h1
    · rw [h1]; exact hkv
    · exact hm.2 e h1
  | some e0 =>
    rw [mergeStep_eq_some hg]
    by_cases hlt : e0.2 < kv.2.2
    · rw [if_pos hlt]
      refine ⟨alistSet_keys_nodup hm.1 _ _, ?_⟩
      intro e he
      rcases mem_alistSet he with h1 | h1
      · rw [h1]; exact hkv
      · exact hm.2 e h1
    · rw [if_neg hlt]
      exact hm

theorem mergeStep_count {m : List (String × (ParsedTransaction × Nat))}
    (kv : String × (ParsedTransaction × Nat)) (k : String) :
    getCount (mergeStep m kv) k =
      if kv.1 = k then max (getCount m k) kv.2.2 else getCount m k := by
  cases hg : alistGet? m kv.1 with
  | none =>
    rw [mergeStep_eq_none hg, getCount_set]
    by_cases h : kv.1 = k
    · rw [if_pos h, if_pos h]
      have : getCount m k = 0 := by rw [getCount, ← h, hg]
      rw [this]
      exact (Nat.max_eq_right (Nat.zero_le _)).symm
    · rw [if_neg h, if_neg h]
  | some e0 =>
    rw [mergeStep_eq_some hg]
    by_cases hlt : e0.2 < kv.2.2
    · rw [if_pos hlt, getCount_set]
      by_cases h : kv.1 = k
      · rw [if_pos h, if_pos h]
        have : getCount m k = e0.2 := by rw [getCount, ← h, hg]
        rw [this]
        exact (Nat.max_eq_right (Nat.le_of_lt hlt)).symm
      · rw [if_neg h, if_neg h]
    · rw [if_neg hlt]
      by_cases h : kv.1 = k
      · rw [if_pos h]
        have : getCount m k = e0.2 := by rw [getCount, ← h, hg]
        rw [this]
        exact (Nat.max_eq_left (Nat.le_of_not_lt hlt)).symm
      · rw [if_neg h]

theorem mergeFold_count (entries m : List (String × (ParsedTransaction × Nat)))
    (hq : GoodMap entries) (k : String) :
    getCount (entries.foldl mergeStep m) k = max (getCount m k) (getCount entries k) := by
  induction entries generalizing m with
  | nil =>
    rw [List.foldl_nil, show getCount [] k = 0 from rfl]
    exact (Nat.max_eq_left (Nat.zero_le _)).symm
  | cons e es ih =>
    rw [List.foldl_cons]
    have hq' : GoodMap es := by
      refine ⟨?_, ?_⟩
      · have := hq.1
        simp only [List.map_cons, List.nodup_cons] at this
        exact this.2
      · intro x hx
        exact hq.2 x (List.mem_cons_of_mem e hx)
    rw [ih _ hq', mergeStep_count]
    by_cases h : e.1 = k
    · rw [if_pos h]
      have hes : getCount es k = 0 := by
        rw [getCount, alistGet?_eq_none_of_not_mem]
        have := hq.1
        simp only [List.map_cons, List.nodup_cons] at this
        rw [← h]
        exact this.1
      have hcons : getCount (e :: es) k = e.2.2 := by
        rw [getCount, alistGet?, if_pos h]
      rw [hes, hcons, Nat.max_comm (getCount m k) e.2.2, Nat.max_eq_left (Nat.zero_le _),
        Nat.max_comm e.2.2 (getCount m k)]
    · rw [if_neg h]
      have hcons : getCount (e :: es) k = getCount es k := by
        rw [getCount, alistGet?, if_neg h]
        rfl
      rw [hcons]

theorem mergeFold_good {entries m : List (String × (ParsedTransaction × Nat))}
    (hq : GoodMap entries) (hm : GoodMap m) : GoodMap (entries.foldl mergeStep m) := by
  induction entries generalizing m with
  | nil => exact hm
  | cons e es ih =>
    rw [List.foldl_cons]
    have hq' : GoodMap es := by
      refine ⟨?_, ?_⟩
      · have := hq.1
        simp only [List.map_cons, List.nodup_cons] at this
        exact this.2
      · intro x hx
        exact hq.2 x (List.mem_cons_of_mem e hx)
    exact ih hq' (mergeStep_good hm (hq.2 e (List.mem_cons_self e es)))

/-- Count of a key in the replicate-expansion of a good map. -/
theorem countKey_flatten {m : List (String × (ParsedTransaction × Nat))}
    (hm : GoodMap m) (k : String) :
    countKey ((m.map (fun kv => List.replicate kv.2.2 kv.2.1)).flatten) k = getCount m k := by
  induction m with
  | nil => simp [countKey, getCount, alistGet?]
  | cons e m ih =>
    have hm' : GoodMap m := by
      refine ⟨?_, fun x hx => hm.2 x (List.mem_cons_of_mem e hx)⟩
      have := hm.1
      simp only [List.map_cons, List.nodup_cons] at this
      exact this.2
    have hkey : buildPdfTransactionKey e.2.1 = e.1 := hm.2 e (List.mem_cons_self e m)
    rw [List.map_cons, List.flatten_cons]
    have hsplit : countKey (List.replicate e.2.2 e.2.1 ++
        (m.map (fun kv => List.replicate kv.2.2 kv.2.1)).flatten) k =
        countKey (List.replicate e.2.2 e.2.1) k +
        countKey ((m.map (fun kv => List.replicate kv.2.2 kv.2.1)).flatten) k := by
      rw [countKey, countKey, countKey, List.filter_append, List.length_append]
    rw [hsplit, ih hm']
    by_cases h : e.1 = k
    · have hrep : countKey (List.replicate e.2.2 e.2.1) k = e.2.2 := by
        rw [countKey, List.filter_replicate, hkey, h]
        simp
      have hm0 : getCount m k = 0 := by
        rw [getCount, alistGet?_eq_none_of_not_mem]
        have := hm.1
        simp only [List.map_cons, List.nodup_cons] at this
        rw [← h]
        exact this.1
      have hcons : getCount (e :: m) k = e.2.2 := by
        rw [getCount, alistGet?, if_pos h]
      rw [hrep, hm0, hcons, Nat.add_zero]
    · have hrep : countKey (List.replicate e.2.2 e.2.1) k = 0 := by
        rw [countKey, List.filter_replicate, hkey]
        simp [h]
      have hcons : getCount (e :: m) k = getCount m k := by
        rw [getCount, alistGet?, if_neg h]
        rfl
      rw [hrep, hcons, Nat.zero_add]

/-- The outer strategy fold accumulates the running maximum per key. -/
theorem strategiesFold_count (S : List (List ParsedTransaction))
    (m : List (String × (ParsedTransaction × Nat))) (hm : GoodMap m) (k : String) :
    getCount
        (S.foldl (fun acc s => (buildTransactionCountMap s).foldl mergeStep acc) m) k =
      S.foldl (fun acc s => max acc (countKey s k)) (getCount m k) := by
  induction S generalizing m with
  | nil => rfl
  | cons s S ih =>
    rw [List.foldl_cons, List.foldl_cons]
    rw [ih _ (mergeFold_good (buildTransactionCountMap_good s) hm)]
    rw [mergeFold_count _ _ (buildTransactionCountMap_good s),
      buildTransactionCountMap_count]

theorem strategiesFold_good (S : List (List ParsedTransaction))
    {m : List (String × (ParsedTransaction × Nat))} (hm : GoodMap m) :
    GoodMap (S.foldl (fun acc s => (buildTransactionCountMap s).foldl mergeStep acc) m) := by
  induction S generalizing m with
  | nil => exact hm
  | cons s S ih =>
    rw [List.foldl_cons]
    exact ih (mergeFold_good (buildTransactionCountMap_good s) hm)

/-! ## Claim theorems -/

/-- C4: for every family of per-strategy PDF candidate lists and every merge
key, the output of mergePdfStrategies contains exactly the maximum number of
occurrences of that key observed in any single strategy (never the sum); in
particular a transaction found twice by one strategy, once by another and not
at all by a third appears exactly twice. -/
theorem C4_merge_dedup_max :
    (∀ (strategies : List (List ParsedTransaction)) (k : String),
      countKey (mergePdfStrategies strategies) k =
        strategies.foldl (fun acc s => max acc (countKey s k)) 0) ∧
    countKey
        (mergePdfStrategies
          [[{ date := "2024-01-15", description := "Coffee Shop", amount := -5,
              category := "dining" },
            { date := "2024-01-15", description := "Coffee Shop", amount := -5,
              category := "dining" }],
           [{ date := "2024-01-15", description := "Coffee Shop", amount := -5,
              category := "dining" }],
           []])
        (buildPdfTransactionKey
          { date := "2024-01-15", description := "Coffee Shop", amount := -5,
            category := "dining" }) = 2 := by
  constructor
  · intro strategies k
    rw [mergePdfStrategies]
    rw [countKey_flatten (strategiesFold_good strategies goodMap_nil) k]
    rw [strategiesFold_count strategies [] goodMap_nil k]
    rfl
  · decide

/-- C9: finite numeric date inputs strictly between 20000 and 80000 are Excel
serial dates: the result is the ISO date 1899-12-30 plus that many days
(floor of the fractional part, through the millisecond arithmetic);
normalizeDate 45000 lands in 2023; numeric inputs outside the open range
fail with an invalid-date error. -/
theorem C9_excel_serial_dates (q : ℚ) :
    (20000 < q → q < 80000 →
      normalizeDate (.num q) =
        .ok (isoOfDays (daysFromCivil ⟨1899, 12, 30⟩ + ⌊q⌋))) ∧
    (q ≤ 20000 ∨ 80000 ≤ q →
      normalizeDate (.num q) = .error ("Invalid date format: " ++ numRepr q)) ∧
    normalizeDate (.num 45000) = .ok "2023-03-15" := by
  refine ⟨?_, ?_, by decide⟩
  · intro h1 h2
    rw [normalizeDate, if_pos ⟨h1, h2⟩]
    have hfloor :
        qfloor (qdivInt
          (qadd (Rat.divInt (daysFromCivil ⟨1899, 12, 30⟩ * 86400000) 1)
            (qmulInt q 86400000)) 86400000) =
        daysFromCivil ⟨1899, 12, 30⟩ + ⌊q⌋ := by
      rw [qfloor_eq, qdivInt_eq, qadd_eq, qmulInt_eq]
      have hd : (Rat.divInt (daysFromCivil ⟨1899, 12, 30⟩ * 86400000) 1) =
          ((daysFromCivil ⟨1899, 12, 30⟩ * 86400000 : ℤ) : ℚ) := by
        rw [Rat.divInt_eq_div]
        norm_num
      rw [hd]
      have harith :
          (((daysFromCivil ⟨1899, 12, 30⟩ * 86400000 : ℤ) : ℚ) + q * (86400000 : ℤ)) /
              ((86400000 : ℤ) : ℚ) =
            ((daysFromCivil ⟨1899, 12, 30⟩ : ℤ) : ℚ) + q := by
        push_cast
        field_simp
        ring
      rw [harith, Int.floor_int_add]
    simp only [hfloor]
  · intro h
    rw [normalizeDate, if_neg]
    rintro ⟨h1, h2⟩
    rcases h with h | h
    · exact absurd h1 (not_lt.mpr h)
    · exact absurd h2 (not_lt.mpr h)

/-- C9 witness: the theorem applied at 45000 (in range) and at 100 (out of
range). -/
theorem C9_witness :
    normalizeDate (.num 45000) =
      .ok (isoOfDays (daysFromCivil ⟨1899, 12, 30⟩ + ⌊(45000 : ℚ)⌋)) ∧
    normalizeDate (.num 100) = .error ("Invalid date format: " ++ numRepr 100) :=
  ⟨(C9_excel_serial_dates 45000).1 (by norm_num) (by norm_num),
   (C9_excel_serial_dates 100).2.1 (Or.inl (by norm_num))⟩

/-- C3 counterexample: the input (5).CR is accepted, contains a parenthesis
and a trailing CR token, and parses to the negative value -5, not to the
positive absolute value the claim requires. -/
theorem C3_counterexample :
    ("(5).CR".data.any (fun c => c = '(')) = true ∧
    hasWordCI ['c', 'r'] "(5).CR" = true ∧
    parseAmount (.str "(5).CR") = .ok (-5) ∧
    ¬ ((-5 : ℚ) = qabs (-5)) := by
  exact ⟨by decide, by decide, by decide, by decide⟩

/-- C3 amended: when an accepted amount string contains a parenthesis, the
negative-forcing rule wins regardless of any CR marker, and the result is the
negated absolute value (the negative branch is tested before the CR branch, so
exactly one of them applies and it is the negative one). -/
theorem C3_amended (s : String) (v : ℚ)
    (hok : parseAmount (.str s) = .ok v)
    (hp : s.data.any (fun c => c = '(') = true) : v = qneg (qabs v) := by
  have hmem : ('(' : Char) ∈ s.data := by
    rcases List.any_eq_true.mp hp with ⟨c, hc, hceq⟩
    have : c = '(' := by simpa using hceq
    exact this ▸ hc
  have hparen : ('(' : Char) ∈ (jsTrim s).data :=
    mem_trimL (by decide) hmem
  have hany : ((jsTrim s).data.any (· = '(')) = true :=
    List.any_eq_true.mpr ⟨'(', hparen, by simp⟩
  have hred : parseAmount (.str s) = parseAmountStr (jsTrim s) := rfl
  rw [hred] at hok
  rw [parseAmountStr] at hok
  by_cases hr : jsTrim s = ""
  · rw [hr] at hany
    simp at hany
  · rw [if_neg hr] at hok
    simp only [hany, Bool.true_or] at hok
    cases hjn : jsNumber ⟨removeCrDrAux none
        (((jsTrim s).data.filter (fun c => !(c = '$' || c = ',' || jsWs c))).filter
          (fun c => !(c = '(' || c = ')')))⟩ with
    | none =>
      rw [hjn] at hok
      simp at hok
    | some numeric =>
      rw [hjn] at hok
      simp only [if_true, Except.ok.injEq] at hok
      subst hok
      rw [qneg_eq, qneg_eq, qabs_eq, qabs_eq, abs_neg, abs_abs]

/-- C3 witness: the amended theorem applied at the concrete input (5).CR. -/
theorem C3_witness : (-5 : ℚ) = qneg (qabs (-5)) :=
  C3_amended "(5).CR" (-5) (by decide) (by decide)

theorem lexLe_refl (s : List Char) : lexLe s s = true := by
  induction s with
  | nil => rfl
  | cons a s ih =>
    rw [lexLe]
    simp [Nat.lt_irrefl, ih]

theorem sorted_range_le (l : List ParsedTransaction) (hs : List.Sorted dateRel l)
    (hne : l ≠ []) (d : ParsedTransaction) :
    lexLe (l.headD d).date.data (l.getLastD d).date.data = true := by
  cases l with
  | nil => exact absurd rfl hne
  | cons x rest =>
    cases rest with
    | nil => exact lexLe_refl _
    | cons y rest2 =>
      rw [List.headD_cons, List.getLastD_cons]
      have hmem : (y :: rest2).getLastD x ∈ x :: y :: rest2 := List.getLastD_mem_cons _ _
      rcases List.mem_cons.mp hmem with h1 | h1
      · rw [h1]
        exact lexLe_refl _
      · exact List.rel_of_sorted_cons hs _ h1

theorem finalize_totals (l : List ParsedTransaction) (a b : ℚ) :
    l.foldl
      (fun acc tx =>
        if 0 < tx.amount then (qadd acc.1 tx.amount, acc.2)
        else (acc.1, qadd acc.2 (qabs tx.amount)))
      (a, b) =
    (a + ((l.filter (fun tx => 0 < tx.amount)).map (fun tx => tx.amount)).sum,
     b + ((l.filter (fun tx => ¬ 0 < tx.amount)).map (fun tx => |tx.amount|)).sum) := by
  induction l generalizing a b with
  | nil => simp
  | cons tx l ih =>
    rw [List.foldl_cons]
    by_cases h : 0 < tx.amount
    · rw [if_pos h, ih]
      simp only [List.filter_cons, h, not_true_eq_false, decide_True, decide_False,
        if_true, Bool.false_eq_true, if_false, List.map_cons, List.sum_cons, qadd_eq,
        Prod.mk.injEq]
      exact ⟨by ring, by trivial⟩
    · rw [if_neg h, ih]
      simp only [List.filter_cons, h, not_false_eq_true, decide_True, decide_False,
        if_true, Bool.false_eq_true, if_false, List.map_cons, List.sum_cons, qadd_eq,
        qabs_eq, Prod.mk.injEq]
      exact ⟨by trivial, by ring⟩

/-- C5: finalizeResult sorts ascending by ISO date (a permutation of the
input), its date range satisfies start lexicographically at most end, its
totalIncome is the sum of the strictly positive amounts and its totalExpenses
the sum of the absolute values of the remaining amounts; the empty list fails
with the no-valid-rows error. -/
theorem C5_finalize_invariants (l : List ParsedTransaction) :
    (l = [] → finalizeResult l = .error "No valid transaction rows were found") ∧
    (l ≠ [] →
      ∃ r, finalizeResult l = .ok r ∧
        List.Sorted dateRel r.transactions ∧
        r.transactions.Perm l ∧
        lexLe r.dateRangeStart.data r.dateRangeEnd.data = true ∧
        r.totalIncome = ((l.filter (fun tx => 0 < tx.amount)).map (fun tx => tx.amount)).sum ∧
        r.totalExpenses =
          ((l.filter (fun tx => ¬ 0 < tx.amount)).map (fun tx => |tx.amount|)).sum) := by
  constructor
  · intro h
    subst h
    rfl
  · intro hne
    rw [finalizeResult, if_neg hne]
    refine ⟨_, rfl, ?_, ?_, ?_, ?_, ?_⟩
    · exact List.sorted_insertionSort dateRel l
    · exact List.perm_insertionSort dateRel l
    · apply sorted_range_le _ (List.sorted_insertionSort dateRel l)
      intro hnil
      apply hne
      have := congrArg List.length hnil
      rw [List.length_insertionSort] at this
      exact List.length_eq_zero.mp this
    · rw [finalize_totals]
      simp
    · rw [finalize_totals]
      simp

/-- Concrete transactions for the C5 witness. -/
def c5txs : List ParsedTransaction :=
  [{ date := "2024-01-15", description := "B", amount := 7, category := "income_other" },
   { date := "2024-01-05", description := "A", amount := -3, category := "other" }]

/-- C5 witness: the theorem applied to the empty list and to a concrete
two-transaction list. -/
theorem C5_witness :
    finalizeResult [] = .error "No valid transaction rows were found" ∧
    (∃ r, finalizeResult c5txs = .ok r ∧
      List.Sorted dateRel r.transactions ∧
      r.transactions.Perm c5txs ∧
      lexLe r.dateRangeStart.data r.dateRangeEnd.data = true ∧
      r.totalIncome =
        ((c5txs.filter (fun tx => 0 < tx.amount)).map (fun tx => tx.amount)).sum ∧
      r.totalExpenses =
        ((c5txs.filter (fun tx => ¬ 0 < tx.amount)).map (fun tx => |tx.amount|)).sum) :=
  ⟨(C5_finalize_invariants []).1 rfl,
   (C5_finalize_invariants c5txs).2 (by decide)⟩

/-- Lookup in a value-mapped association list. -/
theorem alistGet?_map_values {β γ : Type} (f : β → γ) (m : List (String × β)) (k : String) :
    alistGet? (m.map (fun kv => (kv.1, f kv.2))) k = (alistGet? m k).map f := by
  induction m with
  | nil => rfl
  | cons e m ih =>
    rw [List.map_cons, alistGet?, alistGet?]
    by_cases he : e.1 = k
    · rw [if_pos he, if_pos he]
      rfl
    · rw [if_neg he, if_neg he]
      exact ih

/-- Sortedness survives take. -/
theorem sorted_take {α : Type} {r : α → α → Prop} {l : List α} (h : List.Sorted r l)
    (n : Nat) : List.Sorted r (l.take n) :=
  List.Pairwise.sublist (List.take_sublist n l) h

/-- C8: every month summary of the lightweight aggregator carries at most 5
top merchants and the ingestion-merge recomputation at most 10, each sorted
descending by summed expense amount over the 50-character-prefix merchant
buckets. -/
theorem C8_top_merchants_bounds :
    (∀ (txs : List ParsedTransaction) (month : String) (s : TransactionSummary),
      alistGet? (groupTransactionsByMonth txs) month = some s →
      s.top_merchants.length ≤ 5 ∧ List.Sorted merchDesc s.top_merchants) ∧
    (∀ sts : List StoredTransaction,
      (summarizeTransactions sts).top_merchants.length ≤ 10 ∧
      List.Sorted merchDesc (summarizeTransactions sts).top_merchants) := by
  constructor
  · intro txs month s hget
    rw [groupTransactionsByMonth] at hget
    rw [alistGet?_map_values finalizeMonthly] at hget
    cases hraw : alistGet? (txs.foldl groupStep []) month with
    | none => rw [hraw] at hget; simp at hget
    | some raw =>
      rw [hraw] at hget
      simp only [Option.map_some', Option.some.injEq] at hget
      subst hget
      constructor
      · rw [finalizeMonthly]
        simp only [List.length_take, List.length_insertionSort]
        exact min_le_left _ _
      · exact sorted_take (List.sorted_insertionSort merchDesc _) 5
  · intro sts
    rw [summarizeTransactions]
    constructor
    · simp only [List.length_take, List.length_insertionSort]
      exact min_le_left _ _
    · exact sorted_take (List.sorted_insertionSort merchDesc _) 10

/-- Concrete inputs for the C8 witness. -/
def c8txs : List ParsedTransaction :=
  [{ date := "2024-01-15", description := "Coffee Shop", amount := -5, category := "dining" },
   { date := "2024-01-20", description := "Market", amount := -7, category := "groceries" }]

def c8summary : TransactionSummary :=
  { total_income := 0, income_count := 0, income_by_source := [],
    total_expenses := 12, expense_count := 2,
    expenses_by_category := [("dining", 5), ("groceries", 7)],
    top_merchants := [{ name := "Market", amount := 7, count := 1 },
                      { name := "Coffee Shop", amount := 5, count := 1 }] }

def c8sts : List StoredTransaction :=
  [{ date := "2024-01-15", description := "Coffee Shop", amount := -5, category := "dining",
     source_document_id := none }]

/-- C8 witness: the theorem applied to concrete aggregations. -/
theorem C8_witness :
    (c8summary.top_merchants.length ≤ 5 ∧ List.Sorted merchDesc c8summary.top_merchants) ∧
    ((summarizeTransactions c8sts).top_merchants.length ≤ 10 ∧
      List.Sorted merchDesc (summarizeTransactions c8sts).top_merchants) :=
  ⟨C8_top_merchants_bounds.1 c8txs "2024-01-01" c8summary (by decide),
   C8_top_merchants_bounds.2 c8sts⟩

/-- C6: the sanitization layer keeps exactly the rows whose coerced form has
an ISO-shaped date, a non-empty trimmed description and an amount of absolute
value between 0.01 and the configured ceiling (every model amount is finite),
rounding each surviving amount to 2 decimals; dropped rows are not an error,
but an empty sanitized set fails document processing with the
no-valid-transactions error. -/
theorem C6_sanitize_layer (l : List ParsedTransaction) :
    (∀ tx', tx' ∈ sanitizeTransactionsForStorage l ↔
      ∃ tx ∈ l,
        isIsoDate (sanitizeMapStep tx).date = true ∧
        (sanitizeMapStep tx).description ≠ "" ∧
        Rat.divInt 1 100 ≤ qabs (sanitizeMapStep tx).amount ∧
        qabs (sanitizeMapStep tx).amount ≤ getMaxTransactionAbs ∧
        tx' = { sanitizeMapStep tx with amount := roundMoney (sanitizeMapStep tx).amount }) ∧
    (sanitizeTransactionsForStorage l = [] →
      buildParseResultFromTransactions l =
        .error "No valid transaction rows were found after parsing and sanitization") ∧
    (sanitizeTransactionsForStorage l ≠ [] →
      ∃ r, buildParseResultFromTransactions l = .ok r) := by
  refine ⟨?_, ?_, ?_⟩
  · intro tx'
    constructor
    · intro h
      rw [sanitizeTransactionsForStorage] at h
      rcases List.mem_map.mp h with ⟨tx4, h4mem, rfl⟩
      rcases List.mem_filter.mp h4mem with ⟨h3mem, hp4⟩
      rcases List.mem_filter.mp h3mem with ⟨h2mem, hp3⟩
      rcases List.mem_filter.mp h2mem with ⟨h1mem, hp2⟩
      rcases List.mem_filter.mp h1mem with ⟨h0mem, hp1⟩
      rcases List.mem_map.mp h0mem with ⟨tx, htx, rfl⟩
      refine ⟨tx, htx, hp1, ?_, ?_, ?_, rfl⟩
      · simpa using hp2
      · simpa using hp3
      · simpa using hp4
    · rintro ⟨tx, htx, h1, h2, h3, h4, rfl⟩
      rw [sanitizeTransactionsForStorage]
      apply List.mem_map.mpr
      refine ⟨sanitizeMapStep tx, ?_, rfl⟩
      apply List.mem_filter.mpr
      refine ⟨?_, by simpa using h4⟩
      apply List.mem_filter.mpr
      refine ⟨?_, by simpa using h3⟩
      apply List.mem_filter.mpr
      refine ⟨?_, by simpa using h2⟩
      apply List.mem_filter.mpr
      exact ⟨List.mem_map.mpr ⟨tx, htx, rfl⟩, h1⟩
  · intro h
    simp only [buildParseResultFromTransactions, h]
    rfl
  · intro hne
    simp only [buildParseResultFromTransactions]
    rw [if_neg hne]
    exact ⟨_, rfl⟩

/-- Concrete transactions for the C6 witness: one surviving row, one dropped
(zero-amount) row. -/
def c6txs : List ParsedTransaction :=
  [{ date := "2024-01-15", description := " Coffee Shop ", amount := -5, category := "dining" },
   { date := "2024-01-16", description := "Zero", amount := 0, category := "other" }]

/-- C6 witness: the theorem applied at concrete inputs; the kept row shows up
through the membership characterization, the empty sanitized set errors, the
non-empty one succeeds. -/
theorem C6_witness :
    ({ date := "2024-01-15", description := "Coffee Shop", amount := -5, category := "dining" }
        ∈ sanitizeTransactionsForStorage c6txs ↔
      ∃ tx ∈ c6txs,
        isIsoDate (sanitizeMapStep tx).date = true ∧
        (sanitizeMapStep tx).description ≠ "" ∧
        Rat.divInt 1 100 ≤ qabs (sanitizeMapStep tx).amount ∧
        qabs (sanitizeMapStep tx).amount ≤ getMaxTransactionAbs ∧
        ({ date := "2024-01-15", description := "Coffee Shop", amount := -5,
           category := "dining" } : ParsedTransaction) =
          { sanitizeMapStep tx with amount := roundMoney (sanitizeMapStep tx).amount }) ∧
    buildParseResultFromTransactions [] =
      .error "No valid transaction rows were found after parsing and sanitization" ∧
    (∃ r, buildParseResultFromTransactions c6txs = .ok r) :=
  ⟨(C6_sanitize_layer c6txs).1 _,
   (C6_sanitize_layer []).2.1 rfl,
   (C6_sanitize_layer c6txs).2.2 (by decide)⟩

/-- Every token that passes isLikelyAmountToken parses. -/
theorem isLikely_parse {v : String} (h : isLikelyAmountToken v = true) :
    (safeParseAmount (jsTrim v)).isSome = true := by
  rw [isLikelyAmountToken] at h
  split_ifs at h <;> simp_all

/-- Members of extractPdfAmountTokens are trimmed and likely. -/
theorem mem_extractPdfAmountTokens {text t : String}
    (h : t ∈ extractPdfAmountTokens text) :
    isLikelyAmountToken t = true ∧ jsTrim t = t := by
  rw [extractPdfAmountTokens] at h
  rcases List.mem_filter.mp h with ⟨hmem, hlikely⟩
  rcases List.mem_map.mp hmem with ⟨orig, _, rfl⟩
  exact ⟨hlikely, jsTrim_idem orig⟩

/-- C7: the selected amount token is the last extracted token, except that a
balance mention with at least two tokens selects the second-to-last; the
parse fallback never changes the choice because every extracted token
parses. -/
theorem C7_amount_token_selection (text : String)
    (h : extractPdfAmountTokens text ≠ []) :
    ∃ v, safeParseAmount
        (if balanceTest text ∧ 2 ≤ (extractPdfAmountTokens text).length then
          (extractPdfAmountTokens text).getD ((extractPdfAmountTokens text).length - 2) ""
        else (extractPdfAmountTokens text).getLastD "") = some v ∧
      selectPdfAmount text (extractPdfAmountTokens text) =
        some (if balanceTest text ∧ 2 ≤ (extractPdfAmountTokens text).length then
            (extractPdfAmountTokens text).getD ((extractPdfAmountTokens text).length - 2) ""
          else (extractPdfAmountTokens text).getLastD "", v) := by
  have hmem :
      (if balanceTest text ∧ 2 ≤ (extractPdfAmountTokens text).length then
        (extractPdfAmountTokens text).getD ((extractPdfAmountTokens text).length - 2) ""
      else (extractPdfAmountTokens text).getLastD "") ∈ extractPdfAmountTokens text := by
    by_cases hb : balanceTest text ∧ 2 ≤ (extractPdfAmountTokens text).length
    · rw [if_pos hb]
      have hlt : (extractPdfAmountTokens text).length - 2 <
          (extractPdfAmountTokens text).length := by omega
      rw [List.getD_eq_getElem?_getD, List.getElem?_eq_getElem hlt]
      exact List.getElem_mem hlt
    · rw [if_neg hb]
      cases hl : extractPdfAmountTokens text with
      | nil => exact absurd hl h
      | cons a l' =>
        rw [List.getLastD_cons]
        exact List.getLastD_mem_cons l' a
  obtain ⟨hlikely, htrim⟩ := mem_extractPdfAmountTokens hmem
  have hsome := isLikely_parse hlikely
  rw [htrim] at hsome
  obtain ⟨v, hv⟩ := Option.isSome_iff_exists.mp hsome
  refine ⟨v, hv, ?_⟩
  simp only [selectPdfAmount, hv]

/-- C7 witness: a statement line with a balance column; of the two extracted
tokens the second-to-last is selected and parses. -/
theorem C7_witness :
    ∃ v, safeParseAmount
        (if balanceTest "01/15/2024 PURCHASE 45.67 1,234.56 Balance" ∧
            2 ≤ (extractPdfAmountTokens "01/15/2024 PURCHASE 45.67 1,234.56 Balance").length then
          (extractPdfAmountTokens "01/15/2024 PURCHASE 45.67 1,234.56 Balance").getD
            ((extractPdfAmountTokens "01/15/2024 PURCHASE 45.67 1,234.56 Balance").length - 2) ""
        else (extractPdfAmountTokens "01/15/2024 PURCHASE 45.67 1,234.56 Balance").getLastD "") =
          some v ∧
      selectPdfAmount "01/15/2024 PURCHASE 45.67 1,234.56 Balance"
          (extractPdfAmountTokens "01/15/2024 PURCHASE 45.67 1,234.56 Balance") =
        some (if balanceTest "01/15/2024 PURCHASE 45.67 1,234.56 Balance" ∧
            2 ≤ (extractPdfAmountTokens "01/15/2024 PURCHASE 45.67 1,234.56 Balance").length then
          (extractPdfAmountTokens "01/15/2024 PURCHASE 45.67 1,234.56 Balance").getD
            ((extractPdfAmountTokens "01/15/2024 PURCHASE 45.67 1,234.56 Balance").length - 2) ""
        else (extractPdfAmountTokens "01/15/2024 PURCHASE 45.67 1,234.56 Balance").getLastD "",
          v) :=
  C7_amount_token_selection "01/15/2024 PURCHASE 45.67 1,234.56 Balance" (by decide)

theorem qneg_qabs_fix (x : ℚ) : qneg (qabs x) = qneg (qabs (qneg (qabs x))) := by
  rw [qneg_eq, qneg_eq, qabs_eq, qabs_eq, abs_neg, abs_abs]

/-- C10: when the selected amount token carries no sign marker and neither the
derived description nor the surrounding text contains a positive-indicating
keyword, both the PDF text builder and the headerless simple-row extractor
emit the negated absolute value: unsigned amounts default to expenses. -/
theorem C10_unsigned_defaults_to_expense :
    (∀ (text : String) (fallback : Option String) (tx : ParsedTransaction),
      buildPdfTransactionFromText text fallback = some tx →
      (∀ sel v, selectPdfAmount text (extractPdfAmountTokens text) = some (sel, v) →
        hasAmountSign sel = false) →
      looksLikePositiveDescription tx.description = false →
      looksLikePositiveDescription text = false →
      tx.amount = qneg (qabs tx.amount)) ∧
    (∀ (row : List CellValue) (tx : ParsedTransaction),
      parseSimpleRow row = some tx →
      (∀ idx, findAmountIdx ((row.map asCleanString).filter (· ≠ ""))
          (((row.map asCleanString).filter (· ≠ "")).length - 1) = some idx →
        hasAmountSign (((row.map asCleanString).filter (· ≠ "")).getD idx "") = false) →
      looksLikePositiveDescription tx.description = false →
      tx.amount = qneg (qabs tx.amount)) := by
  constructor
  · intro text fallback tx hb hsign hdesc htext
    simp only [buildPdfTransactionFromText] at hb
    split at hb
    · exact absurd hb (by simp)
    · rename_i dateToken _
      split at hb
      · exact absurd hb (by simp)
      · rename_i nd _
        split at hb
        · exact absurd hb (by simp)
        · split at hb
          · exact absurd hb (by simp)
          · rename_i sel v hsel
            split at hb
            · exact absurd hb (by simp)
            · simp only [Option.some.injEq] at hb
              subst hb
              have h1 := hsign sel v hsel
              simp only [h1, hdesc, htext] at *
              simpa using qneg_qabs_fix v
  · intro row tx hp hsign hdesc
    simp only [parseSimpleRow] at hp
    split at hp
    · exact absurd hp (by simp)
    · split at hp
      · exact absurd hp (by simp)
      · rename_i normalizedDate _
        split at hp
        · exact absurd hp (by simp)
        · rename_i amountIndex hidx
          split at hp
          · exact absurd hp (by simp)
          · rename_i parsedAmount _
            split at hp
            · exact absurd hp (by simp)
            · simp only [Option.some.injEq] at hp
              subst hp
              have h1 := hsign amountIndex hidx
              simp only [h1, hdesc] at *
              simpa using qneg_qabs_fix parsedAmount

/-- Witness for C10 at concrete inputs: a PDF line and a headerless row with an
unsigned amount and a neutral description both yield a negative amount. -/
theorem C10_witness :
    (∃ tx, buildPdfTransactionFromText "01/15/2024 STORE PURCHASE 45.67" none = some tx ∧
      tx.amount = qneg (qabs tx.amount)) ∧
    (∃ tx, parseSimpleRow [CellValue.str "01/15/2024", CellValue.str "STORE",
        CellValue.str "PURCHASE", CellValue.str "45.67"] = some tx ∧
      tx.amount = qneg (qabs tx.amount)) := by
  constructor
  · have hb : buildPdfTransactionFromText "01/15/2024 STORE PURCHASE 45.67" none =
        some { date := "2024-01-15", description := "STORE PURCHASE",
               amount := Rat.divInt (-4567) 100, category := "other" } := by decide
    refine ⟨_, hb, C10_unsigned_defaults_to_expense.1 _ none _ hb ?_ (by decide) (by decide)⟩
    intro sel v h
    rw [show selectPdfAmount "01/15/2024 STORE PURCHASE 45.67"
        (extractPdfAmountTokens "01/15/2024 STORE PURCHASE 45.67") =
        some ("45.67", Rat.divInt 4567 100) from by decide] at h
    simp only [Option.some.injEq, Prod.mk.injEq] at h
    obtain ⟨h1, h2⟩ := h
    subst h1
    decide
  · have hp : parseSimpleRow [CellValue.str "01/15/2024", CellValue.str "STORE",
        CellValue.str "PURCHASE", CellValue.str "45.67"] =
        some { date := "2024-01-15", description := "STORE PURCHASE",
               amount := Rat.divInt (-4567) 100, category := "other" } := by decide
    refine ⟨_, hp, C10_unsigned_defaults_to_expense.2 _ _ hp ?_ (by decide)⟩
    intro idx h
    rw [show findAmountIdx (([CellValue.str "01/15/2024", CellValue.str "STORE",
        CellValue.str "PURCHASE", CellValue.str "45.67"].map asCleanString).filter (· ≠ ""))
        ((([CellValue.str "01/15/2024", CellValue.str "STORE", CellValue.str "PURCHASE",
        CellValue.str "45.67"].map asCleanString).filter (· ≠ "")).length - 1) =
        some 3 from by decide] at h
    injection h with h2
    subst h2
    decide

/-- Rows for the C2 counterexample: the first row is fully valid, the second
row's amount cell does not parse. -/
def c2rows : List (List (String × CellValue)) :=
  [[("Date", CellValue.str "01/15/2024"), ("Description", CellValue.str "COFFEE"),
    ("Amount", CellValue.str "-4.50")],
   [("Date", CellValue.str "01/16/2024"), ("Description", CellValue.str "BAD"),
    ("Amount", CellValue.str "abc")]]

/-- C2 counterexample: an unparseable amount in a single cell is NOT caught by
the row builder (only date normalization sits inside the try/catch), so the
whole-file parse fails with the amount error even though another row is
perfectly valid; the valid row is not returned. -/
theorem C2_counterexample :
    csvRowsToTransactions c2rows = Except.error "Invalid amount: abc" ∧
    rowToTransaction (c2rows.getD 0 []) =
      Except.ok (some { date := "2024-01-15", description := "COFFEE",
                        amount := Rat.divInt (-9) 2, category := "dining" }) := by
  exact ⟨by decide, by decide⟩

theorem ok_bind {ε α β : Type} (a : α) (f : α → Except ε β) :
    (Except.ok a >>= f : Except ε β) = f a := rfl

theorem rowToTransaction_ok (row : List (String × CellValue))
    (h : ∃ v, extractAmountFromNormalized (normalizeRowKeys row) = Except.ok v) :
    ∃ w, rowToTransaction row = Except.ok w := by
  obtain ⟨v, hv⟩ := h
  simp only [rowToTransaction]
  split
  · rw [hv, ok_bind]
    rcases v with _ | amount
    · exact ⟨_, rfl⟩
    · dsimp only
      split
      · exact ⟨_, rfl⟩
      · split
        · exact ⟨_, rfl⟩
        · exact ⟨_, rfl⟩
  · exact ⟨_, rfl⟩

theorem mapM_rowToTransaction (rows : List (List (String × CellValue)))
    (h : ∀ row ∈ rows, ∃ v, extractAmountFromNormalized (normalizeRowKeys row) = Except.ok v) :
    rows.mapM rowToTransaction =
      Except.ok (rows.map (fun row => ((rowToTransaction row).toOption).join)) := by
  induction rows with
  | nil => rfl
  | cons row rest ih =>
    obtain ⟨w, hw⟩ := rowToTransaction_ok row (h row (List.mem_cons_self row rest))
    rw [List.mapM_cons, hw, ih (fun r hr => h r (List.mem_cons_of_mem row hr)), ok_bind,
      ok_bind, List.map_cons]
    rw [hw]
    rfl

/-- C2 (amended): an InvalidDate on a single cell only drops that row (the
row builder catches it and returns null), but an InvalidAmount escapes the
row builder and aborts the whole parse.  Provided every row's amount
extraction succeeds, the whole-file parse always succeeds and returns exactly
the per-row results with the dropped rows (missing fields, empty description,
bad date) filtered out. -/
theorem C2_amended (rows : List (List (String × CellValue)))
    (h : ∀ row ∈ rows, ∃ v, extractAmountFromNormalized (normalizeRowKeys row) = Except.ok v) :
    csvRowsToTransactions rows =
      Except.ok (rows.filterMap (fun row => ((rowToTransaction row).toOption).join)) := by
  simp only [csvRowsToTransactions]
  rw [mapM_rowToTransaction rows h, ok_bind]
  rw [List.filterMap_map]
  rfl

/-- Rows for the C2 witness: a valid row plus a row whose date cell does not
normalize; the parse succeeds and silently drops the bad-date row. -/
def c2goodRows : List (List (String × CellValue)) :=
  [[("Date", CellValue.str "01/15/2024"), ("Description", CellValue.str "COFFEE"),
    ("Amount", CellValue.str "-4.50")],
   [("Date", CellValue.str "garbage"), ("Description", CellValue.str "X"),
    ("Amount", CellValue.str "2.00")]]

/-- Witness for C2 (amended) at concrete rows: the InvalidDate row is dropped,
the rest of the file still parses. -/
theorem C2_witness :
    csvRowsToTransactions c2goodRows =
      Except.ok [{ date := "2024-01-15", description := "COFFEE",
                   amount := Rat.divInt (-9) 2, category := "dining" }] := by
  have h := C2_amended c2goodRows (by
    intro row hr
    simp only [c2goodRows, List.mem_cons, List.not_mem_nil, or_false] at hr
    rcases hr with rfl | rfl
    · exact ⟨some (Rat.divInt (-9) 2), by decide⟩
    · exact ⟨some 2, by decide⟩)
  rw [h]
  decide

theorem map_self {α : Type} (f : α → α) :
    ∀ (l : List α), (∀ a ∈ l, f a = a) → l.map f = l
  | [], _ => rfl
  | a :: l, h => by
    rw [List.map_cons, h a (List.mem_cons_self a l),
      map_self f l (fun b hb => h b (List.mem_cons_of_mem a hb))]

theorem filter_self {α : Type} (p : α → Bool) :
    ∀ (l : List α), (∀ a ∈ l, p a = true) → l.filter p = l
  | [], _ => rfl
  | a :: l, h => by
    rw [List.filter_cons, if_pos (h a (List.mem_cons_self a l)),
      filter_self p l (fun b hb => h b (List.mem_cons_of_mem a hb))]

/-- The category coercion of normalizeStoredStep in isolation. -/
def catNorm (c : String) : String :=
  let c0 := if c = "" then "other" else c
  let c1 := jsTrim c0
  if c1 = "" then "other" else c1

/-- The provenance-tag coercion of normalizeStoredStep in isolation. -/
def sdiNorm : Option String → Option String
  | none => none
  | some s => let t := jsTrim s; if t = "" then none else some t

theorem normalizeStoredStep_eq (tx : StoredTransaction) :
    normalizeStoredStep tx =
      { date := jsTrim tx.date, description := jsTrim tx.description, amount := tx.amount,
        category := catNorm tx.category, source_document_id := sdiNorm tx.source_document_id } := by
  cases tx with
  | mk d de a c s => cases s <;> rfl

theorem jsTrim_other : jsTrim "other" = "other" := by decide

theorem catNorm_ne (c : String) : catNorm c ≠ "" := by
  simp only [catNorm]
  by_cases h : jsTrim (if c = "" then "other" else c) = ""
  · simp [h]
  · simp [h]

theorem catNorm_trim (c : String) : jsTrim (catNorm c) = catNorm c := by
  simp only [catNorm]
  by_cases h : jsTrim (if c = "" then "other" else c) = ""
  · simp [h, jsTrim_other]
  · simp [h, jsTrim_idem]

theorem catNorm_idem (c : String) : catNorm (catNorm c) = catNorm c := by
  have h1 := catNorm_ne c
  have h2 := catNorm_trim c
  rw [show catNorm (catNorm c) =
      (if jsTrim (if catNorm c = "" then "other" else catNorm c) = "" then "other"
       else jsTrim (if catNorm c = "" then "other" else catNorm c)) from rfl]
  rw [if_neg h1, h2, if_neg h1]

theorem sdiNorm_idem (s : Option String) : sdiNorm (sdiNorm s) = sdiNorm s := by
  cases s with
  | none => rfl
  | some v =>
    rw [show sdiNorm (some v) = (if jsTrim v = "" then none else some (jsTrim v)) from rfl]
    by_cases h : jsTrim v = ""
    · rw [if_pos h]; rfl
    · rw [if_neg h]
      rw [show sdiNorm (some (jsTrim v)) =
          (if jsTrim (jsTrim v) = "" then none else some (jsTrim (jsTrim v))) from rfl]
      rw [jsTrim_idem, if_neg h]

theorem normalizeStoredStep_idem (tx : StoredTransaction) :
    normalizeStoredStep (normalizeStoredStep tx) = normalizeStoredStep tx := by
  rw [normalizeStoredStep_eq tx, normalizeStoredStep_eq]
  simp only [jsTrim_idem, catNorm_idem, sdiNorm_idem]

/-- Pointwise invariant satisfied by every output row of
normalizeStoredTransactions: fixed point of the coercion step, passes all
four filters, and the amount is 2-decimal stable. -/
def normalInv (tx : StoredTransaction) : Prop :=
  normalizeStoredStep tx = tx ∧
  (tx.date ≠ "" ∧ tx.description ≠ "") ∧
  isIsoDate tx.date = true ∧
  (Rat.divInt 1 100 ≤ qabs tx.amount ∧ qabs tx.amount ≤ getMaxTransactionAbs) ∧
  roundMoney tx.amount = tx.amount

theorem normalizeStored_of_inv (L : List StoredTransaction)
    (h : ∀ tx ∈ L, normalInv tx) : normalizeStoredTransactions L = L := by
  rw [normalizeStoredTransactions]
  rw [map_self normalizeStoredStep L (fun tx htx => (h tx htx).1)]
  rw [filter_self _ L (fun tx htx => by
    have h1 := (h tx htx).2.1
    simp [h1.1, h1.2])]
  rw [filter_self _ L (fun tx htx => (h tx htx).2.2.1)]
  rw [filter_self _ L (fun tx htx => by
    have h3 := (h tx htx).2.2.2.1.1
    simpa using h3)]
  rw [filter_self _ L (fun tx htx => by
    have h4 := (h tx htx).2.2.2.1.2
    simpa using h4)]
  rw [map_self _ L (fun tx htx => by
    have h5 := (h tx htx).2.2.2.2
    cases tx with
    | mk dt de a c s => simp_all)]

theorem step_amount_update {ty : StoredTransaction}
    (hty : normalizeStoredStep ty = ty) (r : ℚ) :
    normalizeStoredStep { ty with amount := r } = { ty with amount := r } := by
  rw [normalizeStoredStep_eq] at hty ⊢
  cases ty with
  | mk dt de a c s =>
    simp only [StoredTransaction.mk.injEq] at hty ⊢
    exact ⟨hty.1, hty.2.1, trivial, hty.2.2.2.1, hty.2.2.2.2⟩

theorem mem_normalizeStored {L : List StoredTransaction} {tx : StoredTransaction}
    (h : tx ∈ normalizeStoredTransactions L) : normalInv tx := by
  rw [normalizeStoredTransactions] at h
  rcases List.mem_map.mp h with ⟨ty0, hymem, rfl⟩
  rcases List.mem_filter.mp hymem with ⟨h3mem, hp4⟩
  rcases List.mem_filter.mp h3mem with ⟨h2mem, hp3⟩
  rcases List.mem_filter.mp h2mem with ⟨h1mem, hp2⟩
  rcases List.mem_filter.mp h1mem with ⟨h0mem, hp1⟩
  rcases List.mem_map.mp h0mem with ⟨tz, _, rfl⟩
  have hstep := normalizeStoredStep_idem tz
  have hp1' : (normalizeStoredStep tz).date ≠ "" ∧
      (normalizeStoredStep tz).description ≠ "" := by simpa using hp1
  have hp3' : Rat.divInt 1 100 ≤ qabs (normalizeStoredStep tz).amount := by simpa using hp3
  have hp4' : qabs (normalizeStoredStep tz).amount ≤ getMaxTransactionAbs := by simpa using hp4
  rw [qabs_eq] at hp3' hp4'
  refine ⟨step_amount_update hstep _, ⟨hp1'.1, hp1'.2⟩, hp2, ⟨?_, ?_⟩, roundMoney_idem _⟩
  · show Rat.divInt 1 100 ≤ qabs (roundMoney (normalizeStoredStep tz).amount)
    rw [qabs_eq, roundMoney_abs]
    refine le_round2nn_of_le ⟨1, ?_⟩ hp3'
    rw [Rat.divInt_eq_div]
    norm_num
  · show qabs (roundMoney (normalizeStoredStep tz).amount) ≤ getMaxTransactionAbs
    rw [qabs_eq, roundMoney_abs]
    refine round2nn_le_of_le ⟨500000000, ?_⟩ hp4'
    rw [getMaxTransactionAbs, DEFAULT_MAX_TRANSACTION_ABS]
    norm_num

theorem normalInv_retag {tx : StoredTransaction} (h : normalInv tx) {d : String}
    (hd : jsTrim d = d) (hne : d ≠ "") :
    normalInv { tx with source_document_id := some d } := by
  obtain ⟨hstep, hfilters, hiso, hbounds, hround⟩ := h
  refine ⟨?_, hfilters, hiso, hbounds, hround⟩
  rw [normalizeStoredStep_eq] at hstep ⊢
  cases tx with
  | mk dt de a c s =>
    simp only [StoredTransaction.mk.injEq] at hstep ⊢
    refine ⟨hstep.1, hstep.2.1, trivial, hstep.2.2.2.1, ?_⟩
    rw [show sdiNorm (some d) = (if jsTrim d = "" then none else some (jsTrim d)) from rfl]
    rw [hd, if_neg hne]

theorem mergeAllTransactions_eq (existing incoming : List StoredTransaction) (d : String) :
    mergeAllTransactions existing incoming d =
      List.insertionSort storedDateRel
        ((normalizeStoredTransactions existing).filter
            (fun tx => tx.source_document_id ≠ some d) ++
          (normalizeStoredTransactions incoming).map
            (fun tx => { tx with source_document_id := some d })) := rfl

theorem mem_mergeAll_inv {E I : List StoredTransaction} {d : String}
    (hd : jsTrim d = d) (hne : d ≠ "") :
    ∀ tx ∈ mergeAllTransactions E I d, normalInv tx := by
  intro tx htx
  rw [mergeAllTransactions_eq] at htx
  have htx2 := (List.perm_insertionSort storedDateRel _).subset htx
  rcases List.mem_append.mp htx2 with h | h
  · exact mem_normalizeStored (List.mem_filter.mp h).1
  · rcases List.mem_map.mp h with ⟨ty, hy, rfl⟩
    exact normalInv_retag (mem_normalizeStored hy) hd hne

theorem mergeAll_idem (E I : List StoredTransaction) (d : String)
    (hd : jsTrim d = d) (hne : d ≠ "") :
    mergeAllTransactions (mergeAllTransactions E I d) I d = mergeAllTransactions E I d := by
  have hnorm : normalizeStoredTransactions (mergeAllTransactions E I d) =
      mergeAllTransactions E I d :=
    normalizeStored_of_inv _ (@mem_mergeAll_inv E I d hd hne)
  have hB : ((normalizeStoredTransactions I).map
        (fun tx => { tx with source_document_id := some d })).filter
        (fun tx => tx.source_document_id ≠ some d) = [] := by
    refine List.filter_eq_nil_iff.mpr ?_
    intro x hx
    rcases List.mem_map.mp hx with ⟨y, _, rfl⟩
    simp
  rw [mergeAllTransactions_eq (mergeAllTransactions E I d) I d, hnorm,
    mergeAllTransactions_eq E I d, filter_insertionSort, List.filter_append,
    filter_self _ _ (fun x hx => (List.mem_filter.mp hx).2), hB, List.append_nil,
    insertionSort_sort_append, ← mergeAllTransactions_eq E I d]

/-- A stored transaction used in the C1 counterexample and witness. -/
def c1tx : StoredTransaction :=
  { date := "2024-01-15", description := "COFFEE", amount := Rat.divInt (-9) 2,
    category := "dining", source_document_id := none }

/-- C1 counterexample: with the source document id "a " (trailing blank) the
merge is NOT idempotent.  The first merge tags the row with "a "; the second
run re-normalizes the stored rows, which trims the tag to "a", so the
document filter no longer removes the previous contribution and the row is
duplicated; the recomputed summary also differs (the expense count doubles). -/
theorem C1_counterexample :
    mergeAllTransactions (mergeAllTransactions [] [c1tx] "a ") [c1tx] "a " ≠
      mergeAllTransactions [] [c1tx] "a " ∧
    (summarizeTransactions
        (mergeAllTransactions (mergeAllTransactions [] [c1tx] "a ") [c1tx] "a ")).expense_count ≠
      (summarizeTransactions (mergeAllTransactions [] [c1tx] "a ")).expense_count := by
  exact ⟨by decide, by decide⟩

/-- C1 (amended): for a source document id that is nonempty and stable under
trimming (as real document ids are), the reprocessing merge is idempotent:
merging the same incoming rows under the same id into the previous merge
result returns the identical transaction list, and the summary recomputation
then returns identical summary fields.  For an id with surrounding whitespace
(or the empty id) the stored tag is re-trimmed on the second run, the
document filter misses it, and rows are duplicated. -/
theorem C1_merge_idempotent (E I : List StoredTransaction) (d : String)
    (hd : jsTrim d = d) (hne : d ≠ "") :
    mergeAllTransactions (mergeAllTransactions E I d) I d = mergeAllTransactions E I d ∧
    summarizeTransactions (mergeAllTransactions (mergeAllTransactions E I d) I d) =
      summarizeTransactions (mergeAllTransactions E I d) := by
  have h := mergeAll_idem E I d hd hne
  exact ⟨h, by rw [h]⟩

/-- C1 witness: the amended idempotence applied at a concrete store, incoming
list and a trim-stable document id. -/
theorem C1_witness :
    jsTrim "doc1" = "doc1" ∧ ("doc1" : String) ≠ "" ∧
    (mergeAllTransactions (mergeAllTransactions [] [c1tx] "doc1") [c1tx] "doc1" =
        mergeAllTransactions [] [c1tx] "doc1" ∧
      summarizeTransactions
          (mergeAllTransactions (mergeAllTransactions [] [c1tx] "doc1") [c1tx] "doc1") =
        summarizeTransactions (mergeAllTransactions [] [c1tx] "doc1")) :=
  ⟨by decide, by decide, C1_merge_idempotent [] [c1tx] "doc1" (by decide) (by decide)⟩
